import Mathlib

/-!
Verification of the matching and disambiguation pipeline of
listenbrainz-auto-mapper.

The development is a shallow embedding of the Python sources:

  - src/lb_mapper/mb_search.py : text normalization (regex suffix
    stripping), the MusicBrainz candidate search adapter, and the
    fallback finders (find_best_match, find_match_by_track_release,
    find_match_by_track_only);
  - src/lb_mapper/translator.py : CJK detection and the cached
    translator;
  - src/lb_mapper/mapper.py : the per-listen matching pipeline
    (_try_map) and the batch orchestrator (process_listens).

Python strings are modelled as List Char.  The regular expressions of
_STRIP_PATTERNS are transcribed into a small regular-expression type
and matched with Brzozowski derivatives; all patterns in the source are
anchored with a dollar sign and cannot match the empty string, so
re.sub(pattern, "", s) removes the shortest suffix match (leftmost
match extending to the end of the string).  The model treats the dollar
anchor as end of string (the Python nuance that a dollar also matches
before one trailing newline is not modelled), and character classes
\w and \s as their ASCII meaning.

Network effects are modelled with a monad M carrying an event trace
(queries sent, translator invocations, mapping submissions) and a
string-labelled exception channel mirroring Python exceptions.  The
HTTP backend is an oracle mapping each query to a transport error or an
HTTP response; raise_for_status raises on any non-2xx status.
-/

namespace LbMapper

/-- Python strings are modelled as lists of characters. -/
abbrev Str := List Char

/-- Decidable equality for Except, used to evaluate runs of the model. -/
def exceptDecEq [DecidableEq ε] [DecidableEq α] : (a b : Except ε α) → Decidable (a = b)
  | .ok a, .ok b => if h : a = b then isTrue (by rw [h]) else isFalse (by simp [h])
  | .ok _, .error _ => isFalse (by simp)
  | .error _, .ok _ => isFalse (by simp)
  | .error e, .error f => if h : e = f then isTrue (by rw [h]) else isFalse (by simp [h])

instance [DecidableEq ε] [DecidableEq α] : DecidableEq (Except ε α) := exceptDecEq

/-- ASCII lower casing, modelling str.lower / re.IGNORECASE on the
ASCII letters (the only cased characters appearing in the patterns). -/
def lowerAscii (c : Char) : Char :=
  if 'A' ≤ c ∧ c ≤ 'Z' then Char.ofNat (c.toNat + 32) else c

/-- Lower-case a whole string, modelling str.lower(). -/
def lowerStr (s : Str) : Str := s.map lowerAscii

/-- Python whitespace (the ASCII part of the \s class and str.strip). -/
def isPySpace (c : Char) : Bool :=
  c = ' ' ∨ c = '\t' ∨ c = '\n' ∨ c = '\r' ∨ c = '\x0b' ∨ c = '\x0c'

/-- Python str.strip(): remove leading and trailing whitespace. -/
def stripPy (s : Str) : Str :=
  ((s.dropWhile isPySpace).reverse.dropWhile isPySpace).reverse

/-- Python substring test: needle in hay. -/
def substrB (needle hay : Str) : Bool :=
  hay.tails.any (fun t => needle.isPrefixOf t)

/-- Truthiness of an optional string parameter, as Python if artist:. -/
def truthy : Option Str → Bool
  | none => false
  | some s => !s.isEmpty

/-- Python translated_artist or listen.artist_name on Optional[str]:
the right operand is used when the left is None or empty. -/
def orStr (a : Option Str) (b : Str) : Str :=
  match a with
  | none => b
  | some s => if s.isEmpty then b else s

/-! ## Regular expressions (Brzozowski derivatives)

The fragment needed by _STRIP_PATTERNS and _RELEASE_STRIP_PATTERNS:
character classes, sequencing, alternation, Kleene star.  Lazy and
greedy repetition denote the same language, and all the patterns end in
a dollar anchor, so a pattern occurrence starting at position p is
exactly a whole-string match of the suffix starting at p. -/

inductive RE where
  | fail
  | eps
  | cls (p : Char → Bool)
  | seq (a b : RE)
  | alt (a b : RE)
  | star (a : RE)

/-- Does the regular expression accept the empty string? -/
def RE.nullable : RE → Bool
  | .fail => false
  | .eps => true
  | .cls _ => false
  | .seq a b => a.nullable && b.nullable
  | .alt a b => a.nullable || b.nullable
  | .star _ => true

/-- Alternation with pruning of dead branches (keeps derivatives small). -/
def RE.mkAlt : RE → RE → RE
  | .fail, r => r
  | r, .fail => r
  | a, b => .alt a b

/-- Sequencing with pruning of dead and trivial branches. -/
def RE.mkSeq : RE → RE → RE
  | .fail, _ => .fail
  | _, .fail => .fail
  | .eps, r => r
  | r, .eps => r
  | a, b => .seq a b

/-- Brzozowski derivative with respect to one character. -/
def RE.deriv (c : Char) : RE → RE
  | .fail => .fail
  | .eps => .fail
  | .cls p => if p c then .eps else .fail
  | .seq a b =>
      if a.nullable then RE.mkAlt (RE.mkSeq (RE.deriv c a) b) (RE.deriv c b)
      else RE.mkSeq (RE.deriv c a) b
  | .alt a b => RE.mkAlt (RE.deriv c a) (RE.deriv c b)
  | .star a => RE.mkSeq (RE.deriv c a) (.star a)

/-- Whole-string match. -/
def reMatches (r : RE) (s : Str) : Bool :=
  (s.foldl (fun r c => RE.deriv c r) r).nullable

/-- Python pattern.sub("", s) for a dollar-anchored pattern: delete the
suffix starting at the leftmost position whose suffix matches, if any. -/
def subAnchored (r : RE) (s : Str) : Str :=
  match (List.range (s.length + 1)).find? (fun p => reMatches r (s.drop p)) with
  | some p => s.take p
  | none => s

/-! ### Combinators used to transcribe the patterns -/

/-- Case-insensitive literal word (re.IGNORECASE). -/
def reLit (w : Str) : RE :=
  w.foldr (fun c acc => RE.seq (RE.cls (fun d => lowerAscii d = lowerAscii c)) acc) RE.eps

/-- Nested alternation of a list of alternatives. -/
def reAlts : List RE → RE
  | [] => RE.fail
  | [r] => r
  | r :: rs => RE.alt r (reAlts rs)

/-- Alternation of literal words, as (TV|Radio|...). -/
def wordAlt (ws : List Str) : RE := reAlts (ws.map reLit)

/-- Nested sequencing of a list of factors. -/
def reSeqs : List RE → RE
  | [] => RE.eps
  | [r] => r
  | r :: rs => RE.seq r (reSeqs rs)

/-- The class \s with a star: zero or more whitespace characters. -/
def ws0 : RE := RE.star (RE.cls isPySpace)

/-- The class \s with a plus: one or more whitespace characters. -/
def ws1 : RE := RE.seq (RE.cls isPySpace) ws0

/-- Optional factor, as a question mark in the pattern. -/
def reOpt (r : RE) : RE := RE.alt RE.eps r

/-- One or more repetitions, as a plus in the pattern. -/
def rePlus (r : RE) : RE := RE.seq r (RE.star r)

/-- The dot: any character except a newline. -/
def reDot : RE := RE.cls (fun c => c ≠ '\n')

/-- The class \w (ASCII meaning): letters, digits, underscore. -/
def isWordChar (c : Char) : Bool := c.isAlphanum ∨ c = '_'

/-- A word character, the class \w. -/
def wChar : RE := RE.cls isWordChar

/-- The class excluding a closing parenthesis. -/
def notRParen : RE := RE.cls (fun c => c ≠ ')')

/-- The class excluding a closing bracket. -/
def notRBracket : RE := RE.cls (fun c => c ≠ ']')

/-- The dash class of pattern 0: hyphen, en dash, em dash. -/
def dashChar : RE := RE.cls (fun c => c = '-' ∨ c = '–' ∨ c = '—')

/-- A single literal character, case-insensitively trivial. -/
def chr (c : Char) : RE := RE.cls (fun d => d = c)

/-- A word boundary followed by a dot-star, as in pattern 9: either the
string ends here, or the next character is a non-word character and the
rest contains no newline. -/
def boundaryRest : RE :=
  RE.alt RE.eps (RE.seq (RE.cls (fun c => !isWordChar c ∧ c ≠ '\n')) (RE.star reDot))

/-! ### The patterns of _STRIP_PATTERNS, in source order -/

/-- Alternation words of patterns 0 to 2 (pattern 0 also has Bonus). -/
def editWords : List Str :=
  ["TV".toList, "Radio".toList, "Album".toList, "Single".toList, "Live".toList,
   "Acoustic".toList, "Orchestral".toList, "Instrumental".toList, "Original".toList,
   "Deluxe".toList]

/-- Tempo and movement words of pattern 9. -/
def tempoWords : List Str :=
  ["Allegro".toList, "Andante".toList, "Adagio".toList, "Moderato".toList,
   "Presto".toList, "Vivace".toList, "Largo".toList, "Grave".toList,
   "Lento".toList, "Scherzo".toList, "Minuet".toList, "Rondo".toList,
   "Finale".toList]

/-- Pattern 0: dash-delimited edit annotations. -/
def trackPat0 : RE :=
  reSeqs [ws0, dashChar, ws0, wordAlt (editWords ++ ["Bonus".toList]),
          ws1, RE.star wChar, ws0, reOpt dashChar, ws0]

/-- Pattern 1: parenthesised edit annotations. -/
def trackPat1 : RE :=
  reSeqs [ws0, chr '(', wordAlt editWords, ws0, RE.star notRParen, chr ')', ws0]

/-- Pattern 2: bracketed edit annotations. -/
def trackPat2 : RE :=
  reSeqs [ws0, chr '[', wordAlt editWords, ws0, RE.star notRBracket, chr ']', ws0]

/-- Pattern 3: parenthesised arrangement credits. -/
def trackPat3 : RE :=
  reSeqs [ws0, chr '(', reLit "Arr.".toList, RE.star reDot, chr ')', ws0]

/-- Pattern 4: bracketed arrangement credits. -/
def trackPat4 : RE :=
  reSeqs [ws0, chr '[', reLit "Arr.".toList, RE.star reDot, chr ']', ws0]

/-- Pattern 5: parenthesised transcription credits. -/
def trackPat5 : RE :=
  reSeqs [ws0, chr '(', reLit "Transcr.".toList, RE.star reDot, chr ')', ws0]

/-- Pattern 6: bracketed transcription credits. -/
def trackPat6 : RE :=
  reSeqs [ws0, chr '[', reLit "Transcr.".toList, RE.star reDot, chr ']', ws0]

/-- Pattern 7: parenthesised Version for X annotations. -/
def trackPat7 : RE :=
  reSeqs [ws0, chr '(', reLit "Version for ".toList, rePlus notRParen, chr ')', ws0]

/-- Pattern 8: parenthesised X Version annotations. -/
def trackPat8 : RE :=
  reSeqs [ws0, chr '(', rePlus notRParen, reLit " Version".toList, chr ')', ws0]

/-- Pattern 9: trailing movement or tempo markings after a colon. -/
def trackPat9 : RE :=
  reSeqs [chr ':', ws0, wordAlt tempoWords, boundaryRest]

/-- Accidental class of pattern 10 (re.IGNORECASE makes the letter b
match B as well). -/
def accidentalChar : RE :=
  RE.cls (fun c => c = '#' ∨ c = '♯' ∨ c = '♭' ∨ lowerAscii c = 'b')

/-- Note-name class of pattern 10, case-insensitive A to G. -/
def noteChar : RE :=
  RE.cls (fun c => 'a' ≤ lowerAscii c ∧ lowerAscii c ≤ 'g')

/-- Pattern 10: trailing key signatures.  Under re.IGNORECASE the eight
alternatives collapse to the four case-insensitive words. -/
def trackPat10 : RE :=
  reSeqs [ws1, reLit "in".toList, ws1, noteChar, reOpt accidentalChar, ws1,
          wordAlt ["Major".toList, "Minor".toList, "Maj".toList, "Min".toList], ws0]

/-- Pattern 11: parenthesised feat. credits. -/
def trackPat11 : RE :=
  reSeqs [ws0, chr '(', reLit "feat.".toList, ws1, rePlus notRParen, chr ')', ws0]

/-- Pattern 12: bracketed feat. credits. -/
def trackPat12 : RE :=
  reSeqs [ws0, chr '[', reLit "feat.".toList, ws1, rePlus notRBracket, chr ']', ws0]

/-- The compiled list _STRIP_RE, in source order. -/
def stripPatterns : List RE :=
  [trackPat0, trackPat1, trackPat2, trackPat3, trackPat4, trackPat5, trackPat6,
   trackPat7, trackPat8, trackPat9, trackPat10, trackPat11, trackPat12]

/-- Release pattern 0: trailing - Single or - EP. -/
def releasePat0 : RE :=
  reSeqs [ws0, chr '-', ws0, wordAlt ["Single".toList, "EP".toList], ws0]

/-- Release pattern 1: parenthesised edition annotations. -/
def releasePat1 : RE :=
  reSeqs [ws0, chr '(',
          wordAlt ["Deluxe".toList, "Special".toList, "Bonus".toList, "Extended".toList],
          ws0, reOpt (wordAlt ["Version".toList, "Edition".toList]), chr ')', ws0]

/-- Release pattern 2: bracketed edition annotations. -/
def releasePat2 : RE :=
  reSeqs [ws0, chr '[',
          wordAlt ["Deluxe".toList, "Special".toList, "Bonus".toList, "Extended".toList],
          ws0, reOpt (wordAlt ["Version".toList, "Edition".toList]), chr ']', ws0]

/-- The compiled list _RELEASE_STRIP_RE, in source order. -/
def releaseStripPatterns : List RE := [releasePat0, releasePat1, releasePat2]

/-- normalize_track_name: apply every strip pattern in order, then strip
surrounding whitespace. -/
def normalizeTrackName (name : Str) : Str :=
  stripPy (stripPatterns.foldl (fun result pat => subAnchored pat result) name)

/-- normalize_release_name: apply every release strip pattern in order,
then strip surrounding whitespace. -/
def normalizeReleaseName (name : Str) : Str :=
  stripPy (releaseStripPatterns.foldl (fun result pat => subAnchored pat result) name)

/-- The helper _track_name_variants: the original name, followed by the
normalized form when that form is non-empty and different. -/
def trackNameVariants (recording : Str) : List Str :=
  let normalized := normalizeTrackName recording
  if normalized ≠ recording ∧ ¬normalized.isEmpty then [recording, normalized]
  else [recording]

/-- The helper _release_name_variants: the original name, followed by
the normalized form when that form is non-empty and different. -/
def releaseNameVariants (release : Str) : List Str :=
  let normalized := normalizeReleaseName release
  if normalized ≠ release ∧ ¬normalized.isEmpty then [release, normalized]
  else [release]

/-! ## Candidate search adapter (mb_search.py)

The adapter is modelled over an HTTP oracle: a deterministic function
from the Lucene query string and the result limit to either a transport
error or an HTTP response carrying the decoded JSON body.  Searches,
translator invocations and mapping submissions are recorded in an event
trace; exceptions are a string-labelled error channel. -/

/-- One parsed search result (the dataclass RecordingMatch). -/
structure RecordingMatch where
  mbid : Str
  title : Str
  artist_credit : Str
  score : Int
  release : Str
deriving DecidableEq

/-- Lucene special characters escaped by _escape. -/
def luceneSpecial : Str :=
  ['+', '-', '&', '|', '!', '(', ')', '{', '}', '[', ']', '^', '"', '~', '*', '?', ':', '\\', '/']

/-- The helper _escape: backslash-escape Lucene special characters. -/
def escapeLucene (s : Str) : Str :=
  s.flatMap (fun c => if c ∈ luceneSpecial then ['\\', c] else [c])

/-- One quoted query field, as artist:"..." with the value escaped. -/
def queryField (field value : Str) : Str :=
  field ++ [':', '"'] ++ escapeLucene value ++ ['"']

/-- The query_parts list built by search_recordings: one field per
truthy parameter, in artist, recording, release order. -/
def buildQueryParts (artist recording release : Option Str) : List Str :=
  (match artist with
   | some a => if !a.isEmpty then [queryField "artist".toList a] else []
   | none => []) ++
  (match recording with
   | some r => if !r.isEmpty then [queryField "recording".toList r] else []
   | none => []) ++
  (match release with
   | some r => if !r.isEmpty then [queryField "release".toList r] else []
   | none => [])

/-- Raw artist info of the response JSON. -/
structure MBArtistInfo where
  name : Option Str
deriving DecidableEq

/-- Raw artist-credit element of the response JSON. -/
structure MBArtistCredit where
  name : Option Str
  joinphrase : Option Str
  artist : Option MBArtistInfo
deriving DecidableEq

/-- Raw release element of the response JSON. -/
structure MBRelease where
  title : Option Str
deriving DecidableEq

/-- Raw recording element of the response JSON. -/
structure MBRecording where
  id : Option Str
  title : Option Str
  score : Option Int
  artistCredit : List MBArtistCredit
  releases : List MBRelease
deriving DecidableEq

/-- Decoded response body (the recordings key, absent means empty). -/
structure MBSearchBody where
  recordings : List MBRecording
deriving DecidableEq

/-- Outcome of one HTTP GET: transport failure or a status and body. -/
inductive HttpOutcome where
  | transportError (msg : String)
  | response (status : Nat) (body : MBSearchBody)

/-- The HTTP search backend as a deterministic oracle from the query
string and limit to the outcome of the network call. -/
abbrev Backend := Str → Nat → HttpOutcome

/-- Events recorded by a run of the pipeline: each outgoing search
request, translator invocation, and mapping submission. -/
inductive Ev where
  | search (query : Str) (limit : Nat)
  | translate (artist : Str)
  | submit (msid mbid : Str)
deriving DecidableEq

/-- The effect monad: an event trace accumulator and a string-labelled
exception channel (Python exceptions).  The trace survives an
exception, as the network calls already happened. -/
abbrev M (α : Type) : Type := List Ev → Except String α × List Ev

/-- Monadic unit for M. -/
def M.pure (a : α) : M α := fun log => (.ok a, log)

/-- Monadic bind for M: exceptions short-circuit, the trace persists. -/
def M.bind (x : M α) (f : α → M β) : M β := fun log =>
  match x log with
  | (.ok a, log') => f a log'
  | (.error e, log') => (.error e, log')

instance : Monad M where
  pure := M.pure
  bind := M.bind

/-- Raise an exception, as a Python raise. -/
def M.throw (e : String) : M α := fun log => (.error e, log)

/-- Run a computation and reify its exception, as a try/except block. -/
def M.attempt (x : M α) : M (Except String α) := fun log =>
  match x log with
  | (.ok a, log') => (.ok (.ok a), log')
  | (.error e, log') => (.ok (.error e), log')

/-- The value a computation produces when run on the empty trace (the
value is independent of the incoming trace for every lawful program). -/
def M.val (x : M α) : Except String α := (x []).1

/-- The events a computation appends to the trace. -/
def M.delta (x : M α) : List Ev := (x []).2

/-- A lawful program only appends to the trace and its result does not
depend on the incoming trace. -/
def M.Lawful (x : M α) : Prop := ∀ log, x log = (x.val, log ++ x.delta)

/-- The helper _rate_limited_get: perform the GET (recording the
request in the trace; the one-second rate-limit sleep has no observable
effect in this model), then raise_for_status, which raises unless the
status is a 2xx success, then decode the body. -/
def rateLimitedGet (backend : Backend) (query : Str) (limit : Nat) : M MBSearchBody :=
  fun log =>
    match backend query limit with
    | .transportError msg => (.error msg, log ++ [.search query limit])
    | .response status body =>
        if 200 ≤ status ∧ status < 300 then (.ok body, log ++ [.search query limit])
        else (.error ("HTTP status " ++ toString status), log ++ [.search query limit])

/-- Python or-chain of artist-credit parts: ac.get("name", "") or the
nested artist name. -/
def creditPartName (ac : MBArtistCredit) : Str :=
  let n := ac.name.getD []
  if n.isEmpty then
    match ac.artist with
    | some info => info.name.getD []
    | none => []
  else n

/-- The artist-credit display string: concatenate each credit name and
join phrase, then strip. -/
def artistCreditOf (credits : List MBArtistCredit) : Str :=
  stripPy (credits.flatMap (fun ac => creditPartName ac ++ ac.joinphrase.getD []))

/-- First release title of a raw recording, empty when none. -/
def releaseTitleOf (releases : List MBRelease) : Str :=
  match releases with
  | [] => []
  | r :: _ => r.title.getD []

/-- Parse one raw recording into a RecordingMatch, with the defaults of
the source (missing id and title decode to empty, missing score to 0). -/
def parseRecording (rec : MBRecording) : RecordingMatch :=
  { mbid := rec.id.getD [], title := rec.title.getD [],
    artist_credit := artistCreditOf rec.artistCredit,
    score := rec.score.getD 0, release := releaseTitleOf rec.releases }

/-- search_recordings: build the query from the truthy parameters;
with no parts return the empty list without querying, otherwise issue
the rate-limited GET and parse every returned recording. -/
def searchRecordings (backend : Backend) (artist recording release : Option Str)
    (limit : Nat) : M (List RecordingMatch) :=
  if (buildQueryParts artist recording release).isEmpty then
    pure []
  else do
    let body ← rateLimitedGet backend
      (List.intercalate " AND ".toList (buildQueryParts artist recording release)) limit
    pure (body.recordings.map parseRecording)

/-- The fixed auto-accept threshold AUTO_ACCEPT_SCORE. -/
def autoAcceptScore : Int := 90

/-- The acceptance step of find_best_match on one result list: the
above_threshold comprehension followed by taking its first element. -/
def acceptAboveThreshold (results : List RecordingMatch) (minScore : Int) :
    Option RecordingMatch :=
  match results.filter (fun r => decide (minScore ≤ r.score)) with
  | r :: _ => some r
  | [] => none

/-- find_best_match: exact search, then, when the normalized track name
differs from the original, a retry with the normalized name.  The
min_score parameter defaults to AUTO_ACCEPT_SCORE at every call site of
the source. -/
def findBestMatch (backend : Backend) (artist recording : Str) (minScore : Int) :
    M (Option RecordingMatch) := do
  let results ← searchRecordings backend (some artist) (some recording) none 5
  match acceptAboveThreshold results minScore with
  | some r => pure (some r)
  | none =>
      if normalizeTrackName recording ≠ recording then do
        let results ← searchRecordings backend (some artist)
          (some (normalizeTrackName recording)) none 5
        match acceptAboveThreshold results minScore with
        | some r => pure (some r)
        | none => pure none
      else pure none

/-- The nested variant loops of find_match_by_track_release, flattened
in iteration order: release-name variants outer, track-name variants
inner. -/
def releaseTrackPairs (recording release : Str) : List (Str × Str) :=
  (releaseNameVariants release).flatMap
    (fun releaseName => (trackNameVariants recording).map (fun trackName => (releaseName, trackName)))

/-- Loop body of find_match_by_track_release over the remaining variant
pairs: query by recording and release, return the first result whose
artist-credit contains the expected artist, case-insensitively. -/
def findByTrackReleaseGo (backend : Backend) (expectedLower : Str) :
    List (Str × Str) → M (Option RecordingMatch)
  | [] => pure none
  | (releaseName, trackName) :: rest => do
      let results ← searchRecordings backend none (some trackName) (some releaseName) 10
      match results.find? (fun r => substrB expectedLower (lowerStr r.artist_credit)) with
      | some r => pure (some r)
      | none => findByTrackReleaseGo backend expectedLower rest

/-- find_match_by_track_release: fallback search by track plus release,
requiring an artist-credit substring match and no score threshold. -/
def findMatchByTrackRelease (backend : Backend) (recording release expectedArtist : Str) :
    M (Option RecordingMatch) :=
  findByTrackReleaseGo backend (lowerStr expectedArtist) (releaseTrackPairs recording release)

/-- Loop body of find_match_by_track_only over the remaining track-name
variants: query by recording only, return the first result with score
at least min_score whose artist-credit contains the expected artist. -/
def findByTrackOnlyGo (backend : Backend) (expectedLower : Str) (minScore : Int) :
    List Str → M (Option RecordingMatch)
  | [] => pure none
  | trackName :: rest => do
      let results ← searchRecordings backend none (some trackName) none 10
      match results.find?
          (fun r => decide (minScore ≤ r.score) && substrB expectedLower (lowerStr r.artist_credit)) with
      | some r => pure (some r)
      | none => findByTrackOnlyGo backend expectedLower minScore rest

/-- find_match_by_track_only: last-resort search by track name only,
requiring both the score threshold and the artist-credit substring
match.  The min_score parameter defaults to AUTO_ACCEPT_SCORE at every
call site of the source. -/
def findMatchByTrackOnly (backend : Backend) (recording expectedArtist : Str)
    (minScore : Int) : M (Option RecordingMatch) :=
  findByTrackOnlyGo backend (lowerStr expectedArtist) minScore (trackNameVariants recording)

/-! ## CJK detection and the cached translator (translator.py) -/

/-- contains_cjk: does the text contain a character of the class
U+3000 to U+9FFF (CJK symbols, Hiragana, Katakana, CJK Unified
Ideographs)? -/
def containsCjk (text : Str) : Bool :=
  text.any (fun c => 0x3000 ≤ c.toNat ∧ c.toNat ≤ 0x9fff)

/-- The persistent translation cache of a Translator, a dictionary from
original artist names to translations, modelled as an association list. -/
structure TranslatorState where
  cache : List (Str × Str)
deriving DecidableEq

/-- Observable actions of Translator.translate_artist: a cache lookup,
an external translator invocation, a cache write-back to disk. -/
inductive TrEv where
  | cacheLookup (key : Str)
  | externalCall (key : Str)
  | cacheSave
deriving DecidableEq

/-- Translator.translate_artist: return non-CJK names unchanged without
touching the cache or the external translator; otherwise consult the
cache, and on a miss invoke the external translator, record the result
in the cache and persist it.  A failing external call propagates as an
exception and leaves the cache unchanged. -/
def translateArtist (external : Str → Except String Str) (st : TranslatorState)
    (artistName : Str) : Except String Str × TranslatorState × List TrEv :=
  if ¬containsCjk artistName then (.ok artistName, st, [])
  else
    match st.cache.lookup artistName with
    | some cached => (.ok cached, st, [.cacheLookup artistName])
    | none =>
        match external artistName with
        | .ok translated =>
            (.ok translated, ⟨st.cache ++ [(artistName, translated)]⟩,
             [.cacheLookup artistName, .externalCall artistName, .cacheSave])
        | .error e => (.error e, st, [.cacheLookup artistName, .externalCall artistName])

/-! ## The matching pipeline and the orchestrator (mapper.py) -/

/-- One listen (lb_client.Listen); mbid_mapping is the optional
existing link, present means already linked. -/
structure Listen where
  listened_at : Int
  recording_msid : Str
  artist_name : Str
  track_name : Str
  release_name : Str
  mbid_mapping : Option Unit
deriving DecidableEq

/-- Listen.is_linked: an existing link is present. -/
def Listen.is_linked (l : Listen) : Bool := l.mbid_mapping.isSome

/-- The four outcome tags of MappingStatus. -/
inductive MappingStatus where
  | already_linked
  | mapped
  | no_match
  | error
deriving DecidableEq

/-- The per-listen outcome record MappingResult.  The field match of
the source is named matched here (match is a Lean keyword). -/
structure MappingResult where
  listen : Listen
  status : MappingStatus
  matched : Option RecordingMatch
  translated_artist : Option Str
  error : Option String
deriving DecidableEq

/-- Invoke the translator oracle, recording the invocation. -/
def callTranslate (translateO : Str → Except String Str) (artist : Str) : M Str :=
  fun log => (translateO artist, log ++ [.translate artist])

/-- Invoke lb.submit_mapping, recording the submission. -/
def callSubmit (submitO : Str → Str → Except String Unit) (msid mbid : Str) : M Unit :=
  fun log => (submitO msid mbid, log ++ [.submit msid mbid])

/-- The guarded submission if not dry_run: lb.submit_mapping(...) that
precedes every MAPPED return of _try_map. -/
def submitUnlessDry (submitO : Str → Str → Except String Unit) (dryRun : Bool)
    (msid mbid : Str) : M Unit :=
  if !dryRun then callSubmit submitO msid mbid else pure ()

/-- Step 3 of _try_map: the track plus release fallback, tried only
when a release name is present; the expected artist is the translated
name when one was computed, else the original. -/
def step3Result (backend : Backend) (listen : Listen) (translatedArtist : Option Str) :
    M (Option RecordingMatch) :=
  if !listen.release_name.isEmpty then
    findMatchByTrackRelease backend listen.track_name listen.release_name
      (orStr translatedArtist listen.artist_name)
  else pure none

/-- Steps 3 to 5 of _try_map (the code past the translation retry),
with the translated artist name, when one was computed, threaded
through as in the source: the track plus release fallback, then the
track-only fallback, then the NO_MATCH outcome. -/
def tryMapFallback (backend : Backend) (submitO : Str → Str → Except String Unit)
    (listen : Listen) (dryRun : Bool) (translatedArtist : Option Str) : M MappingResult := do
  let m₃ ← step3Result backend listen translatedArtist
  match m₃ with
  | some m => do
      submitUnlessDry submitO dryRun listen.recording_msid m.mbid
      pure { listen := listen, status := .mapped, matched := some m,
             translated_artist := translatedArtist, error := none }
  | none => do
      let m₄ ← findMatchByTrackOnly backend listen.track_name
        (orStr translatedArtist listen.artist_name) autoAcceptScore
      match m₄ with
      | some m => do
          submitUnlessDry submitO dryRun listen.recording_msid m.mbid
          pure { listen := listen, status := .mapped, matched := some m,
                 translated_artist := translatedArtist, error := none }
      | none =>
          pure { listen := listen, status := .no_match, matched := none,
                 translated_artist := translatedArtist, error := none }

/-- The per-listen pipeline _try_map: search with the original
metadata; when that finds nothing and the artist name contains CJK
script, translate the artist and retry; then fall through to the
track plus release and track-only fallbacks.  Every accepted match is
submitted unless dry_run. -/
def tryMap (backend : Backend) (translateO : Str → Except String Str)
    (submitO : Str → Str → Except String Unit) (listen : Listen) (dryRun : Bool) :
    M MappingResult := do
  let m₁ ← findBestMatch backend listen.artist_name listen.track_name autoAcceptScore
  match m₁ with
  | some m => do
      submitUnlessDry submitO dryRun listen.recording_msid m.mbid
      pure { listen := listen, status := .mapped, matched := some m,
             translated_artist := none, error := none }
  | none =>
      if containsCjk listen.artist_name then do
        let translatedArtist ← callTranslate translateO listen.artist_name
        let m₂ ← findBestMatch backend translatedArtist listen.track_name autoAcceptScore
        match m₂ with
        | some m => do
            submitUnlessDry submitO dryRun listen.recording_msid m.mbid
            pure { listen := listen, status := .mapped, matched := some m,
                   translated_artist := some translatedArtist, error := none }
        | none => tryMapFallback backend submitO listen dryRun (some translatedArtist)
      else
        tryMapFallback backend submitO listen dryRun none

/-- The except-arm of the orchestrator try/except: pass a successful
selection through, convert an exception into an ERROR outcome carrying
the message. -/
def processWrap (listen : Listen) (attempted : Except String MappingResult) : M MappingResult :=
  match attempted with
  | .ok r => pure r
  | .error e =>
      pure { listen := listen, status := .error, matched := none,
             translated_artist := none, error := some e }

/-- The loop body of process_listens on one listen: emit
ALREADY_LINKED without searching for a linked listen, otherwise run
_try_map under the try/except that converts any exception into an
ERROR outcome carrying the message. -/
def processOne (backend : Backend) (translateO : Str → Except String Str)
    (submitO : Str → Str → Except String Unit) (listen : Listen) (dryRun : Bool) :
    M MappingResult :=
  if listen.is_linked then
    pure { listen := listen, status := .already_linked, matched := none,
           translated_artist := none, error := none }
  else do
    let attempted ← M.attempt (tryMap backend translateO submitO listen dryRun)
    processWrap listen attempted

/-- The orchestrator loop of process_listens over an already fetched
list of listens: process each listen in order and collect one outcome
per listen; one failing listen never aborts the batch. -/
def processListens (backend : Backend) (translateO : Str → Except String Str)
    (submitO : Str → Str → Except String Unit) (listens : List Listen) (dryRun : Bool) :
    M (List MappingResult) :=
  match listens with
  | [] => pure []
  | listen :: rest => do
      let result ← processOne backend translateO submitO listen dryRun
      let results ← processListens backend translateO submitO rest dryRun
      pure (result :: results)

/-- Translator-invocation test on one event. -/
def Ev.isTranslate : Ev → Bool
  | .translate _ => true
  | _ => false

/-- Does a trace contain a translator invocation? -/
def hasTranslateEv (trace : List Ev) : Bool := trace.any Ev.isTranslate

/-- A program that never invokes the translator: running it leaves the
presence of translator events in the trace unchanged. -/
def NoTranslate (x : M α) : Prop :=
  ∀ log, (x log).2.any Ev.isTranslate = log.any Ev.isTranslate

/-- Hangul syllables (the block U+AC00 to U+D7AF), used to state which
artist names the spec expects the script gate to detect. -/
def isHangulSyllable (c : Char) : Bool := 0xac00 ≤ c.toNat ∧ c.toNat ≤ 0xd7af

/-- The acceptance invariant of the five-strategy pipeline: the match
carried by a MAPPED outcome was returned by one of the strategies and
satisfied that strategy acceptance rule.  Spec steps 1 and 2 are the
exact and normalized queries inside find_best_match (score threshold),
step 3 the translated retry of the same (score threshold), step 4 the
track plus release fallback (artist substring, no score threshold),
step 5 the track-only fallback (score threshold and artist substring). -/
def SelectedByOwnRule (backend : Backend) (translateO : Str → Except String Str)
    (listen : Listen) (result : MappingResult) (m : RecordingMatch) : Prop :=
  ((findBestMatch backend listen.artist_name listen.track_name autoAcceptScore).val =
        .ok (some m) ∧ autoAcceptScore ≤ m.score)
  ∨ (containsCjk listen.artist_name = true ∧
      ∃ t, translateO listen.artist_name = .ok t ∧
        (findBestMatch backend t listen.track_name autoAcceptScore).val = .ok (some m) ∧
        autoAcceptScore ≤ m.score)
  ∨ (listen.release_name ≠ [] ∧
      (findMatchByTrackRelease backend listen.track_name listen.release_name
          (orStr result.translated_artist listen.artist_name)).val = .ok (some m) ∧
      substrB (lowerStr (orStr result.translated_artist listen.artist_name))
        (lowerStr m.artist_credit) = true)
  ∨ ((findMatchByTrackOnly backend listen.track_name
        (orStr result.translated_artist listen.artist_name) autoAcceptScore).val =
          .ok (some m) ∧
      autoAcceptScore ≤ m.score ∧
      substrB (lowerStr (orStr result.translated_artist listen.artist_name))
        (lowerStr m.artist_credit) = true)

/-! ### Concrete fixtures used to run the model on closed inputs -/

/-- A backend answering every query with an empty success response. -/
def emptyBackend : Backend := fun _ _ => .response 200 ⟨[]⟩

/-- A backend answering every query with a 503 status. -/
def failing503Backend : Backend := fun _ _ => .response 503 ⟨[]⟩

/-- A backend failing every query at the transport layer. -/
def transportFailBackend : Backend := fun _ _ => .transportError "connection reset"

/-- A translator oracle that always fails (never reached in the
scenarios that use it). -/
def noTranslator : Str → Except String Str := fun _ => .error "translator unavailable"

/-- A submission oracle that always succeeds. -/
def okSubmit : Str → Str → Except String Unit := fun _ _ => .ok ()

/-- A raw recording body with one artist-credit entry. -/
def mbRecOf (mbid title credit : Str) (score : Int) : MBRecording :=
  { id := some mbid, title := some title, score := some score,
    artistCredit := [{ name := some credit, joinphrase := none, artist := none }],
    releases := [] }

/-- A backend answering every query with one score-95 recording by Foo. -/
def fooBackend : Backend :=
  fun _ _ => .response 200 ⟨[mbRecOf "m1".toList "Song".toList "Foo".toList 95]⟩

/-- The parsed form of the single fooBackend candidate. -/
def fooMatch : RecordingMatch :=
  { mbid := "m1".toList, title := "Song".toList, artist_credit := "Foo".toList,
    score := 95, release := [] }

/-- An unlinked listen by Foo with an annotation-free track name. -/
def fooListen : Listen :=
  { listened_at := 0, recording_msid := "ms".toList, artist_name := "Foo".toList,
    track_name := "Plain Song".toList, release_name := [], mbid_mapping := none }

/-- An unlinked listen whose artist name is Hangul syllables. -/
def hangulListen : Listen :=
  { listened_at := 0, recording_msid := "ms".toList, artist_name := "한글".toList,
    track_name := "Plain Song".toList, release_name := [], mbid_mapping := none }

/-- A raw recording carrying only a score (empty artist credit). -/
def scoredRec (score : Int) : MBRecording :=
  { id := some "x".toList, title := some "T".toList, score := some score,
    artistCredit := [], releases := [] }

/-- The parsed form of scoredRec. -/
def scoredMatch (score : Int) : RecordingMatch :=
  { mbid := "x".toList, title := "T".toList, artist_credit := [], score := score,
    release := [] }

/-- A backend whose result list is not sorted by score: an 80 first,
then a 95. -/
def unsortedBackend : Backend :=
  fun _ _ => .response 200 ⟨[scoredRec 80, scoredRec 95]⟩

/-- A backend that fails at the transport layer exactly on queries
mentioning the artist Bad, and answers empty success otherwise. -/
def flakyBackend : Backend := fun query _ =>
  if substrB "Bad".toList query then .transportError "boom" else .response 200 ⟨[]⟩

/-- First listen of the three-listen batch scenario. -/
def batchListen1 : Listen :=
  { listened_at := 1, recording_msid := "s1".toList, artist_name := "One".toList,
    track_name := "Plain Song".toList, release_name := [], mbid_mapping := none }

/-- Second listen of the batch scenario; its searches hit the flaky
transport failure. -/
def batchListen2 : Listen :=
  { listened_at := 2, recording_msid := "s2".toList, artist_name := "Bad".toList,
    track_name := "Plain Song".toList, release_name := [], mbid_mapping := none }

/-- Third listen of the batch scenario. -/
def batchListen3 : Listen :=
  { listened_at := 3, recording_msid := "s3".toList, artist_name := "Three".toList,
    track_name := "Plain Song".toList, release_name := [], mbid_mapping := none }

/-! ## Monad laws of the trace model

Every program of the model only appends to the trace, and neither its
result nor the appended events depend on the incoming trace.  These
lemmas let proofs reason about M.val and M.delta compositionally. -/

/-- Do-notation bind on M is M.bind. -/
theorem M.bind_def (x : M α) (f : α → M β) : (x >>= f) = M.bind x f := rfl

/-- Do-notation pure on M is M.pure. -/
theorem M.pure_def (a : α) : (Pure.pure a : M α) = M.pure a := rfl

/-- Value of M.pure. -/
theorem M.pure_val (a : α) : (M.pure a).val = .ok a := rfl

/-- Trace of M.pure. -/
theorem M.pure_delta (a : α) : (M.pure a).delta = [] := rfl

/-- M.pure is lawful. -/
theorem M.lawful_pure (a : α) : (M.pure a).Lawful := by
  intro log
  show ((Except.ok a : Except String α), log) = ((Except.ok a : Except String α), log ++ [])
  rw [List.append_nil]

/-- M.throw is lawful. -/
theorem M.lawful_throw (e : String) : (M.throw e : M α).Lawful := by
  intro log
  show ((Except.error e : Except String α), log) = ((Except.error e : Except String α), log ++ [])
  rw [List.append_nil]

/-- A bind of lawful programs is lawful. -/
theorem M.lawful_bind {x : M α} {f : α → M β} (hx : x.Lawful) (hf : ∀ a, (f a).Lawful) :
    (M.bind x f).Lawful := by
  intro log
  have hx0 := hx []
  rw [List.nil_append] at hx0
  show M.bind x f log = ((M.bind x f []).1, log ++ (M.bind x f []).2)
  unfold M.bind
  rw [hx log, hx0]
  cases hv : x.val with
  | ok a =>
      show f a (log ++ x.delta) = ((f a x.delta).1, log ++ (f a x.delta).2)
      rw [hf a (log ++ x.delta), hf a x.delta]
      show _ = ((f a).val, log ++ (x.delta ++ (f a).delta))
      rw [List.append_assoc]
  | error e => rfl

/-- Value of a bind of lawful programs. -/
theorem M.bind_val {x : M α} {f : α → M β} (hx : x.Lawful) (hf : ∀ a, (f a).Lawful) :
    (M.bind x f).val = match x.val with
      | .ok a => (f a).val
      | .error e => .error e := by
  have hx0 := hx []
  rw [List.nil_append] at hx0
  show (M.bind x f []).1 = _
  unfold M.bind
  rw [hx0]
  cases hv : x.val with
  | ok a =>
      show (f a x.delta).1 = (f a).val
      rw [hf a x.delta]
  | error e => rfl

/-- Trace of a bind of lawful programs. -/
theorem M.bind_delta {x : M α} {f : α → M β} (hx : x.Lawful) (hf : ∀ a, (f a).Lawful) :
    (M.bind x f).delta = x.delta ++ match x.val with
      | .ok a => (f a).delta
      | .error _ => [] := by
  have hx0 := hx []
  rw [List.nil_append] at hx0
  show (M.bind x f []).2 = _
  unfold M.bind
  rw [hx0]
  cases hv : x.val with
  | ok a =>
      show (f a x.delta).2 = x.delta ++ (f a).delta
      rw [hf a x.delta]
  | error e =>
      show x.delta = x.delta ++ []
      rw [List.append_nil]

/-- M.attempt of a lawful program is lawful. -/
theorem M.lawful_attempt {x : M α} (hx : x.Lawful) : (M.attempt x).Lawful := by
  intro log
  have hx0 := hx []
  rw [List.nil_append] at hx0
  show M.attempt x log = ((M.attempt x []).1, log ++ (M.attempt x []).2)
  unfold M.attempt
  rw [hx log, hx0]
  cases hv : x.val <;> rfl

/-- Value of M.attempt: the reified result. -/
theorem M.attempt_val {x : M α} (hx : x.Lawful) : (M.attempt x).val = .ok x.val := by
  have hx0 := hx []
  rw [List.nil_append] at hx0
  show (M.attempt x []).1 = _
  unfold M.attempt
  rw [hx0]
  cases hv : x.val <;> rfl

/-- Trace of M.attempt. -/
theorem M.attempt_delta {x : M α} (hx : x.Lawful) : (M.attempt x).delta = x.delta := by
  have hx0 := hx []
  rw [List.nil_append] at hx0
  show (M.attempt x []).2 = _
  unfold M.attempt
  rw [hx0]
  cases hv : x.val <;> rfl

/-- rateLimitedGet is lawful. -/
theorem lawful_rateLimitedGet (backend : Backend) (query : Str) (limit : Nat) :
    (rateLimitedGet backend query limit).Lawful := by
  intro log
  show rateLimitedGet backend query limit log =
    ((rateLimitedGet backend query limit []).1, log ++ (rateLimitedGet backend query limit []).2)
  unfold rateLimitedGet
  cases backend query limit with
  | transportError msg => rw [List.nil_append]
  | response status body =>
      by_cases h : 200 ≤ status ∧ status < 300
      · simp only [if_pos h, List.nil_append]
      · simp only [if_neg h, List.nil_append]

/-- searchRecordings is lawful. -/
theorem lawful_searchRecordings (backend : Backend) (artist recording release : Option Str)
    (limit : Nat) : (searchRecordings backend artist recording release limit).Lawful := by
  unfold searchRecordings
  simp only [M.bind_def, M.pure_def]
  split
  · exact M.lawful_pure _
  · exact M.lawful_bind (lawful_rateLimitedGet _ _ _) (fun _ => M.lawful_pure _)

/-- findBestMatch is lawful. -/
theorem lawful_findBestMatch (backend : Backend) (artist recording : Str) (minScore : Int) :
    (findBestMatch backend artist recording minScore).Lawful := by
  unfold findBestMatch
  simp only [M.bind_def, M.pure_def]
  refine M.lawful_bind (lawful_searchRecordings _ _ _ _ _) (fun results => ?_)
  split
  · exact M.lawful_pure _
  · split
    · refine M.lawful_bind (lawful_searchRecordings _ _ _ _ _) (fun results2 => ?_)
      split
      · exact M.lawful_pure _
      · exact M.lawful_pure _
    · exact M.lawful_pure _

/-- The track-release loop is lawful. -/
theorem lawful_findByTrackReleaseGo (backend : Backend) (expectedLower : Str)
    (pairs : List (Str × Str)) : (findByTrackReleaseGo backend expectedLower pairs).Lawful := by
  induction pairs with
  | nil => exact M.lawful_pure _
  | cons p rest ih =>
      obtain ⟨releaseName, trackName⟩ := p
      unfold findByTrackReleaseGo
      simp only [M.bind_def, M.pure_def]
      refine M.lawful_bind (lawful_searchRecordings _ _ _ _ _) (fun results => ?_)
      split
      · exact M.lawful_pure _
      · exact ih

/-- findMatchByTrackRelease is lawful. -/
theorem lawful_findMatchByTrackRelease (backend : Backend)
    (recording release expectedArtist : Str) :
    (findMatchByTrackRelease backend recording release expectedArtist).Lawful :=
  lawful_findByTrackReleaseGo _ _ _

/-- The track-only loop is lawful. -/
theorem lawful_findByTrackOnlyGo (backend : Backend) (expectedLower : Str) (minScore : Int)
    (tracks : List Str) : (findByTrackOnlyGo backend expectedLower minScore tracks).Lawful := by
  induction tracks with
  | nil => exact M.lawful_pure _
  | cons trackName rest ih =>
      unfold findByTrackOnlyGo
      simp only [M.bind_def, M.pure_def]
      refine M.lawful_bind (lawful_searchRecordings _ _ _ _ _) (fun results => ?_)
      split
      · exact M.lawful_pure _
      · exact ih

/-- findMatchByTrackOnly is lawful. -/
theorem lawful_findMatchByTrackOnly (backend : Backend) (recording expectedArtist : Str)
    (minScore : Int) : (findMatchByTrackOnly backend recording expectedArtist minScore).Lawful :=
  lawful_findByTrackOnlyGo _ _ _ _

/-- callTranslate is lawful. -/
theorem lawful_callTranslate (translateO : Str → Except String Str) (artist : Str) :
    (callTranslate translateO artist).Lawful := by
  intro log
  rfl

/-- callSubmit is lawful. -/
theorem lawful_callSubmit (submitO : Str → Str → Except String Unit) (msid mbid : Str) :
    (callSubmit submitO msid mbid).Lawful := by
  intro log
  rfl

/-- submitUnlessDry is lawful. -/
theorem lawful_submitUnlessDry (submitO : Str → Str → Except String Unit) (dryRun : Bool)
    (msid mbid : Str) : (submitUnlessDry submitO dryRun msid mbid).Lawful := by
  unfold submitUnlessDry
  simp only [M.pure_def]
  split
  · exact lawful_callSubmit _ _ _
  · exact M.lawful_pure _

/-- step3Result is lawful. -/
theorem lawful_step3Result (backend : Backend) (listen : Listen)
    (translatedArtist : Option Str) : (step3Result backend listen translatedArtist).Lawful := by
  unfold step3Result
  simp only [M.pure_def]
  split
  · exact lawful_findMatchByTrackRelease _ _ _ _
  · exact M.lawful_pure _

/-- tryMapFallback is lawful. -/
theorem lawful_tryMapFallback (backend : Backend) (submitO : Str → Str → Except String Unit)
    (listen : Listen) (dryRun : Bool) (translatedArtist : Option Str) :
    (tryMapFallback backend submitO listen dryRun translatedArtist).Lawful := by
  unfold tryMapFallback
  simp only [M.bind_def, M.pure_def]
  refine M.lawful_bind (lawful_step3Result _ _ _) (fun m₃ => ?_)
  split
  · exact M.lawful_bind (lawful_submitUnlessDry _ _ _ _) (fun _ => M.lawful_pure _)
  · refine M.lawful_bind (lawful_findMatchByTrackOnly _ _ _ _) (fun m₄ => ?_)
    split
    · exact M.lawful_bind (lawful_submitUnlessDry _ _ _ _) (fun _ => M.lawful_pure _)
    · exact M.lawful_pure _

/-- tryMap is lawful. -/
theorem lawful_tryMap (backend : Backend) (translateO : Str → Except String Str)
    (submitO : Str → Str → Except String Unit) (listen : Listen) (dryRun : Bool) :
    (tryMap backend translateO submitO listen dryRun).Lawful := by
  unfold tryMap
  simp only [M.bind_def, M.pure_def]
  refine M.lawful_bind (lawful_findBestMatch _ _ _ _) (fun m₁ => ?_)
  split
  · exact M.lawful_bind (lawful_submitUnlessDry _ _ _ _) (fun _ => M.lawful_pure _)
  · split
    · refine M.lawful_bind (lawful_callTranslate _ _) (fun translatedArtist => ?_)
      refine M.lawful_bind (lawful_findBestMatch _ _ _ _) (fun m₂ => ?_)
      split
      · exact M.lawful_bind (lawful_submitUnlessDry _ _ _ _) (fun _ => M.lawful_pure _)
      · exact lawful_tryMapFallback _ _ _ _ _
    · exact lawful_tryMapFallback _ _ _ _ _

/-- processOne is lawful. -/
theorem lawful_processOne (backend : Backend) (translateO : Str → Except String Str)
    (submitO : Str → Str → Except String Unit) (listen : Listen) (dryRun : Bool) :
    (processOne backend translateO submitO listen dryRun).Lawful := by
  unfold processOne
  simp only [M.bind_def, M.pure_def]
  split
  · exact M.lawful_pure _
  · refine M.lawful_bind (M.lawful_attempt (lawful_tryMap _ _ _ _ _)) (fun attempted => ?_)
    unfold processWrap
    simp only [M.pure_def]
    split
    · exact M.lawful_pure _
    · exact M.lawful_pure _

/-- processListens is lawful. -/
theorem lawful_processListens (backend : Backend) (translateO : Str → Except String Str)
    (submitO : Str → Str → Except String Unit) (listens : List Listen) (dryRun : Bool) :
    (processListens backend translateO submitO listens dryRun).Lawful := by
  induction listens with
  | nil => exact M.lawful_pure _
  | cons listen rest ih =>
      unfold processListens
      simp only [M.bind_def, M.pure_def]
      exact M.lawful_bind (lawful_processOne _ _ _ _ _)
        (fun result => M.lawful_bind ih (fun results => M.lawful_pure _))

/-! ## Acceptance lemmas for the finders -/

/-- Unfolding equation for M.bind at a trace. -/
theorem M.bind_apply (x : M α) (f : α → M β) (log : List Ev) :
    M.bind x f log = match x log with
      | (.ok a, log') => f a log'
      | (.error e, log') => (.error e, log') := rfl

/-- The value of a lawful program at any trace is its value. -/
theorem M.val_eq {x : M α} (hx : x.Lawful) (log : List Ev) : (x log).1 = x.val := by
  rw [hx log]

/-- A candidate accepted by the above_threshold step meets the score
threshold. -/
theorem acceptAboveThreshold_score {results : List RecordingMatch} {minScore : Int}
    {r : RecordingMatch} (h : acceptAboveThreshold results minScore = some r) :
    minScore ≤ r.score := by
  unfold acceptAboveThreshold at h
  cases hf : results.filter (fun r => decide (minScore ≤ r.score)) with
  | nil => rw [hf] at h; cases h
  | cons x xs =>
      rw [hf] at h
      have hx : x ∈ results.filter (fun r => decide (minScore ≤ r.score)) := by
        rw [hf]; exact List.mem_cons_self x xs
      have hscore := (List.mem_filter.mp hx).2
      have hxr : x = r := by injection h
      rw [hxr] at hscore
      simpa using hscore

/-- Any match accepted by find_best_match meets the score threshold:
both the exact query and the normalized retry accept only through the
above_threshold step. -/
theorem findBestMatch_score (backend : Backend) (artist recording : Str) (minScore : Int)
    (m : RecordingMatch) (log : List Ev)
    (h : (findBestMatch backend artist recording minScore log).1 = .ok (some m)) :
    minScore ≤ m.score := by
  unfold findBestMatch at h
  simp only [M.bind_def, M.pure_def, M.bind_apply] at h
  rcases hs : searchRecordings backend (some artist) (some recording) none 5 log with ⟨v₁, log₁⟩
  rw [hs] at h
  cases v₁ with
  | error e => simp at h
  | ok results =>
      dsimp only at h
      cases hacc : acceptAboveThreshold results minScore with
      | some r =>
          rw [hacc] at h
          dsimp only [M.pure] at h
          cases h
          exact acceptAboveThreshold_score hacc
      | none =>
          rw [hacc] at h
          dsimp only at h
          split at h
          · simp only [M.bind_apply] at h
            rcases hs₂ : searchRecordings backend (some artist)
                (some (normalizeTrackName recording)) none 5 log₁ with ⟨v₂, log₂⟩
            rw [hs₂] at h
            cases v₂ with
            | error e => simp at h
            | ok results₂ =>
                dsimp only at h
                cases hacc₂ : acceptAboveThreshold results₂ minScore with
                | some r =>
                    rw [hacc₂] at h
                    dsimp only [M.pure] at h
                    cases h
                    exact acceptAboveThreshold_score hacc₂
                | none =>
                    rw [hacc₂] at h
                    dsimp only [M.pure] at h
                    cases h
          · dsimp only [M.pure] at h
            cases h

/-- Any match returned by the track-only loop meets both the score
threshold and the artist-credit substring requirement. -/
theorem findByTrackOnlyGo_spec (backend : Backend) (expectedLower : Str) (minScore : Int)
    (tracks : List Str) :
    ∀ (log : List Ev) (m : RecordingMatch),
      (findByTrackOnlyGo backend expectedLower minScore tracks log).1 = .ok (some m) →
      minScore ≤ m.score ∧ substrB expectedLower (lowerStr m.artist_credit) = true := by
  induction tracks with
  | nil =>
      intro log m h
      simp [findByTrackOnlyGo, M.pure_def, M.pure] at h
  | cons trackName rest ih =>
      intro log m h
      unfold findByTrackOnlyGo at h
      simp only [M.bind_def, M.pure_def, M.bind_apply] at h
      rcases hs : searchRecordings backend none (some trackName) none 10 log with ⟨v, log₁⟩
      rw [hs] at h
      cases v with
      | error e => simp at h
      | ok results =>
          dsimp only at h
          cases hfind : results.find?
              (fun r => decide (minScore ≤ r.score) &&
                substrB expectedLower (lowerStr r.artist_credit)) with
          | some r =>
              rw [hfind] at h
              dsimp only [M.pure] at h
              have h₁ : (some r : Option RecordingMatch) = some m := by injection h
              have hrm : r = m := by injection h₁
              have hpred := List.find?_some hfind
              rw [hrm] at hpred
              have hand : decide (minScore ≤ m.score) = true ∧
                  substrB expectedLower (lowerStr m.artist_credit) = true := by
                simpa using hpred
              exact ⟨of_decide_eq_true hand.1, hand.2⟩
          | none =>
              rw [hfind] at h
              dsimp only at h
              exact ih log₁ m h

/-- Any match returned by find_match_by_track_only meets both the
score threshold and the artist-credit substring requirement. -/
theorem findMatchByTrackOnly_spec (backend : Backend) (recording expectedArtist : Str)
    (minScore : Int) (log : List Ev) (m : RecordingMatch)
    (h : (findMatchByTrackOnly backend recording expectedArtist minScore log).1 = .ok (some m)) :
    minScore ≤ m.score ∧ substrB (lowerStr expectedArtist) (lowerStr m.artist_credit) = true :=
  findByTrackOnlyGo_spec backend (lowerStr expectedArtist) minScore
    (trackNameVariants recording) log m h

/-- Any match returned by the track-release loop meets the
artist-credit substring requirement. -/
theorem findByTrackReleaseGo_spec (backend : Backend) (expectedLower : Str)
    (pairs : List (Str × Str)) :
    ∀ (log : List Ev) (m : RecordingMatch),
      (findByTrackReleaseGo backend expectedLower pairs log).1 = .ok (some m) →
      substrB expectedLower (lowerStr m.artist_credit) = true := by
  induction pairs with
  | nil =>
      intro log m h
      simp [findByTrackReleaseGo, M.pure_def, M.pure] at h
  | cons p rest ih =>
      obtain ⟨releaseName, trackName⟩ := p
      intro log m h
      unfold findByTrackReleaseGo at h
      simp only [M.bind_def, M.pure_def, M.bind_apply] at h
      rcases hs : searchRecordings backend none (some trackName) (some releaseName) 10 log
        with ⟨v, log₁⟩
      rw [hs] at h
      cases v with
      | error e => simp at h
      | ok results =>
          dsimp only at h
          cases hfind : results.find?
              (fun r => substrB expectedLower (lowerStr r.artist_credit)) with
          | some r =>
              rw [hfind] at h
              dsimp only [M.pure] at h
              have h₁ : (some r : Option RecordingMatch) = some m := by injection h
              have hrm : r = m := by injection h₁
              have hpred := List.find?_some hfind
              rw [hrm] at hpred
              exact hpred
          | none =>
              rw [hfind] at h
              dsimp only at h
              exact ih log₁ m h

/-- Any match returned by find_match_by_track_release meets the
artist-credit substring requirement. -/
theorem findMatchByTrackRelease_spec (backend : Backend) (recording release expectedArtist : Str)
    (log : List Ev) (m : RecordingMatch)
    (h : (findMatchByTrackRelease backend recording release expectedArtist log).1 = .ok (some m)) :
    substrB (lowerStr expectedArtist) (lowerStr m.artist_credit) = true :=
  findByTrackReleaseGo_spec backend (lowerStr expectedArtist)
    (releaseTrackPairs recording release) log m h

/-! ## Normalization: one pass either fixes the string or shortens it -/

/-- One anchored substitution returns the input or a strictly shorter
string (it deletes a non-empty suffix or nothing). -/
theorem subAnchored_eq_or_length_lt (r : RE) (s : Str) :
    subAnchored r s = s ∨ (subAnchored r s).length < s.length := by
  unfold subAnchored
  cases hf : (List.range (s.length + 1)).find? (fun p => reMatches r (s.drop p)) with
  | none => exact Or.inl rfl
  | some p =>
      by_cases hp : p = s.length
      · subst hp
        exact Or.inl (List.take_length s)
      · right
        have hmem : p ∈ List.range (s.length + 1) := List.mem_of_find?_eq_some hf
        have hlt : p < s.length + 1 := List.mem_range.mp hmem
        have hplt : p < s.length := lt_of_le_of_ne (Nat.lt_succ_iff.mp hlt) hp
        have hlen : (List.take p s).length ≤ p := by
          rw [List.length_take]
          exact min_le_left _ _
        show (List.take p s).length < s.length
        omega

/-- Both-ends stripping returns the input or a strictly shorter string. -/
theorem stripPy_eq_or_length_lt (s : Str) : stripPy s = s ∨ (stripPy s).length < s.length := by
  have h1 : (s.dropWhile isPySpace).Sublist s := (List.dropWhile_suffix _).sublist
  have h2 : ((s.dropWhile isPySpace).reverse.dropWhile isPySpace).Sublist
      (s.dropWhile isPySpace).reverse := (List.dropWhile_suffix _).sublist
  have hl : (stripPy s).length =
      ((s.dropWhile isPySpace).reverse.dropWhile isPySpace).length := by
    unfold stripPy; rw [List.length_reverse]
  have hle1 := h2.length_le
  rw [List.length_reverse] at hle1
  have hle2 := h1.length_le
  by_cases h : (stripPy s).length = s.length
  · left
    have hdw1 : (s.dropWhile isPySpace).length = s.length := by omega
    have hdw1eq : s.dropWhile isPySpace = s := h1.eq_of_length hdw1
    have hdw2 : ((s.dropWhile isPySpace).reverse.dropWhile isPySpace).length =
        (s.dropWhile isPySpace).reverse.length := by rw [List.length_reverse]; omega
    have hdw2eq := h2.eq_of_length hdw2
    unfold stripPy
    rw [hdw2eq, List.reverse_reverse, hdw1eq]
  · right
    omega

/-- Folding the substitutions over the pattern list returns the input
or a strictly shorter string. -/
theorem foldlSub_eq_or_length_lt (pats : List RE) (s : Str) :
    pats.foldl (fun result pat => subAnchored pat result) s = s ∨
    (pats.foldl (fun result pat => subAnchored pat result) s).length < s.length := by
  induction pats generalizing s with
  | nil => exact Or.inl rfl
  | cons p ps ih =>
      simp only [List.foldl_cons]
      rcases subAnchored_eq_or_length_lt p s with h | h
      · rw [h]; exact ih s
      · rcases ih (subAnchored p s) with h2 | h2
        · rw [h2]; exact Or.inr h
        · exact Or.inr (lt_trans h2 h)

/-- One normalization pass returns the input or a strictly shorter
string. -/
theorem normalizeTrackName_eq_or_length_lt (s : Str) :
    normalizeTrackName s = s ∨ (normalizeTrackName s).length < s.length := by
  unfold normalizeTrackName
  rcases foldlSub_eq_or_length_lt stripPatterns s with h | h
  · rw [h]; exact stripPy_eq_or_length_lt s
  · rcases stripPy_eq_or_length_lt
        (stripPatterns.foldl (fun result pat => subAnchored pat result) s) with h2 | h2
    · rw [h2]; exact Or.inr h
    · exact Or.inr (lt_trans h2 h)

/-! ## The above_threshold acceptance of find_best_match -/

/-- Taking the head of the above_threshold comprehension is finding the
first result at or above the threshold, in backend order. -/
theorem acceptAboveThreshold_eq_find (results : List RecordingMatch) (minScore : Int) :
    acceptAboveThreshold results minScore =
      results.find? (fun r => decide (minScore ≤ r.score)) := by
  induction results with
  | nil => rfl
  | cons x xs ih =>
      unfold acceptAboveThreshold
      rw [List.filter_cons, List.find?_cons]
      by_cases h : minScore ≤ x.score
      · rw [decide_eq_true h]
        rfl
      · rw [decide_eq_false h]
        show acceptAboveThreshold xs minScore = _
        exact ih

/-- On a result list sorted by non-increasing score, the accepted
candidate is exactly the top candidate, and only when its score meets
the threshold. -/
theorem acceptAboveThreshold_sorted (results : List RecordingMatch) (minScore : Int)
    (r : RecordingMatch) (hsort : results.Pairwise (fun a b => b.score ≤ a.score)) :
    acceptAboveThreshold results minScore = some r ↔
      results.head? = some r ∧ minScore ≤ r.score := by
  cases results with
  | nil => simp [acceptAboveThreshold]
  | cons x xs =>
      rw [acceptAboveThreshold_eq_find, List.find?_cons]
      constructor
      · intro h
        by_cases hx : minScore ≤ x.score
        · rw [decide_eq_true hx] at h
          have hxr : x = r := by injection h
          subst hxr
          exact ⟨rfl, hx⟩
        · rw [decide_eq_false hx] at h
          have hfind : xs.find? (fun r => decide (minScore ≤ r.score)) = some r := h
          have hr := List.find?_some hfind
          have hmem := List.mem_of_find?_eq_some hfind
          have hle := (List.pairwise_cons.mp hsort).1 r hmem
          have : minScore ≤ x.score := le_trans (of_decide_eq_true hr) hle
          exact absurd this hx
      · rintro ⟨hh, hs⟩
        have hxr : x = r := by injection hh
        subst hxr
        rw [decide_eq_true hs]

/-! ## Characterization of the track-release fallback -/

/-- The track-release loop returns exactly the first candidate, in
variant-iteration order over the concatenated per-query result lists,
whose artist-credit contains the expected artist; None when no variant
combination produces one.  The acceptance predicate mentions no score. -/
theorem findByTrackReleaseGo_characterize (backend : Backend) (expectedLower : Str)
    (pairs : List (Str × Str)) (rs : Str × Str → List RecordingMatch)
    (hrs : ∀ p ∈ pairs,
      (searchRecordings backend none (some p.2) (some p.1) 10).val = .ok (rs p)) :
    ∀ log, (findByTrackReleaseGo backend expectedLower pairs log).1 =
      .ok ((pairs.flatMap rs).find?
        (fun r => substrB expectedLower (lowerStr r.artist_credit))) := by
  induction pairs with
  | nil => intro log; rfl
  | cons p rest ih =>
      intro log
      obtain ⟨releaseName, trackName⟩ := p
      unfold findByTrackReleaseGo
      simp only [M.bind_def, M.pure_def, M.bind_apply]
      have hval := hrs (releaseName, trackName) (List.mem_cons_self _ _)
      rcases hs : searchRecordings backend none (some trackName) (some releaseName) 10 log
        with ⟨v, log₁⟩
      have hv : v = .ok (rs (releaseName, trackName)) := by
        have := M.val_eq (lawful_searchRecordings backend none (some trackName)
          (some releaseName) 10) log
        rw [hs] at this
        rw [← this] at hval
        exact hval
      subst hv
      dsimp only
      rw [List.flatMap_cons, List.find?_append]
      cases hfind : (rs (releaseName, trackName)).find?
          (fun r => substrB expectedLower (lowerStr r.artist_credit)) with
      | some r => simp [hfind, M.pure]
      | none =>
          simp only [hfind, Option.none_orElse]
          exact ih (fun q hq => hrs q (List.mem_cons_of_mem _ hq)) log₁

/-! ## Programs that never invoke the translator -/

/-- M.pure invokes no translator. -/
theorem noTranslate_pure (a : α) : NoTranslate (M.pure a) := fun _ => rfl

/-- A bind of translator-free programs is translator-free. -/
theorem noTranslate_bind {x : M α} {f : α → M β} (hx : NoTranslate x)
    (hf : ∀ a, NoTranslate (f a)) : NoTranslate (M.bind x f) := by
  intro log
  unfold M.bind
  rcases hxl : x log with ⟨v, log'⟩
  have hx' := hx log
  rw [hxl] at hx'
  cases v with
  | ok a =>
      dsimp only
      rw [hf a log']
      exact hx'
  | error e => exact hx'

/-- An if-then-else of translator-free programs is translator-free. -/
theorem noTranslate_ite (c : Prop) [Decidable c] {x y : M α} (hx : NoTranslate x)
    (hy : NoTranslate y) : NoTranslate (if c then x else y) := by
  by_cases h : c
  · rw [if_pos h]; exact hx
  · rw [if_neg h]; exact hy

/-- rateLimitedGet emits only a search event. -/
theorem noTranslate_rateLimitedGet (backend : Backend) (query : Str) (limit : Nat) :
    NoTranslate (rateLimitedGet backend query limit) := by
  intro log
  unfold rateLimitedGet
  cases backend query limit with
  | transportError msg => simp [Ev.isTranslate]
  | response status body =>
      by_cases h : 200 ≤ status ∧ status < 300 <;> simp [h, Ev.isTranslate]

/-- callSubmit emits only a submit event. -/
theorem noTranslate_callSubmit (submitO : Str → Str → Except String Unit) (msid mbid : Str) :
    NoTranslate (callSubmit submitO msid mbid) := by
  intro log
  unfold callSubmit
  simp [Ev.isTranslate]

/-- submitUnlessDry invokes no translator. -/
theorem noTranslate_submitUnlessDry (submitO : Str → Str → Except String Unit) (dryRun : Bool)
    (msid mbid : Str) : NoTranslate (submitUnlessDry submitO dryRun msid mbid) := by
  unfold submitUnlessDry
  simp only [M.pure_def]
  exact noTranslate_ite _ (noTranslate_callSubmit _ _ _) (noTranslate_pure _)

/-- searchRecordings invokes no translator. -/
theorem noTranslate_searchRecordings (backend : Backend) (artist recording release : Option Str)
    (limit : Nat) : NoTranslate (searchRecordings backend artist recording release limit) := by
  unfold searchRecordings
  simp only [M.bind_def, M.pure_def]
  exact noTranslate_ite _ (noTranslate_pure _)
    (noTranslate_bind (noTranslate_rateLimitedGet _ _ _) (fun _ => noTranslate_pure _))

/-- findBestMatch invokes no translator. -/
theorem noTranslate_findBestMatch (backend : Backend) (artist recording : Str) (minScore : Int) :
    NoTranslate (findBestMatch backend artist recording minScore) := by
  unfold findBestMatch
  simp only [M.bind_def, M.pure_def]
  refine noTranslate_bind (noTranslate_searchRecordings _ _ _ _ _) (fun results => ?_)
  split
  · exact noTranslate_pure _
  · split
    · refine noTranslate_bind (noTranslate_searchRecordings _ _ _ _ _) (fun results2 => ?_)
      split
      · exact noTranslate_pure _
      · exact noTranslate_pure _
    · exact noTranslate_pure _

/-- The track-release loop invokes no translator. -/
theorem noTranslate_findByTrackReleaseGo (backend : Backend) (expectedLower : Str)
    (pairs : List (Str × Str)) : NoTranslate (findByTrackReleaseGo backend expectedLower pairs) := by
  induction pairs with
  | nil => exact noTranslate_pure _
  | cons p rest ih =>
      obtain ⟨releaseName, trackName⟩ := p
      unfold findByTrackReleaseGo
      simp only [M.bind_def, M.pure_def]
      refine noTranslate_bind (noTranslate_searchRecordings _ _ _ _ _) (fun results => ?_)
      split
      · exact noTranslate_pure _
      · exact ih

/-- The track-only loop invokes no translator. -/
theorem noTranslate_findByTrackOnlyGo (backend : Backend) (expectedLower : Str) (minScore : Int)
    (tracks : List Str) : NoTranslate (findByTrackOnlyGo backend expectedLower minScore tracks) := by
  induction tracks with
  | nil => exact noTranslate_pure _
  | cons trackName rest ih =>
      unfold findByTrackOnlyGo
      simp only [M.bind_def, M.pure_def]
      refine noTranslate_bind (noTranslate_searchRecordings _ _ _ _ _) (fun results => ?_)
      split
      · exact noTranslate_pure _
      · exact ih

/-- step3Result invokes no translator. -/
theorem noTranslate_step3Result (backend : Backend) (listen : Listen)
    (translatedArtist : Option Str) : NoTranslate (step3Result backend listen translatedArtist) := by
  unfold step3Result
  simp only [M.pure_def]
  exact noTranslate_ite _ (noTranslate_findByTrackReleaseGo _ _ _) (noTranslate_pure _)

/-- The whole fallback chain (steps 3 to 5) invokes no translator. -/
theorem noTranslate_tryMapFallback (backend : Backend) (submitO : Str → Str → Except String Unit)
    (listen : Listen) (dryRun : Bool) (translatedArtist : Option Str) :
    NoTranslate (tryMapFallback backend submitO listen dryRun translatedArtist) := by
  unfold tryMapFallback
  simp only [M.bind_def, M.pure_def]
  refine noTranslate_bind (noTranslate_step3Result _ _ _) (fun m₃ => ?_)
  split
  · exact noTranslate_bind (noTranslate_submitUnlessDry _ _ _ _) (fun _ => noTranslate_pure _)
  · refine noTranslate_bind (noTranslate_findByTrackOnlyGo _ _ _ _) (fun m₄ => ?_)
    split
    · exact noTranslate_bind (noTranslate_submitUnlessDry _ _ _ _) (fun _ => noTranslate_pure _)
    · exact noTranslate_pure _

/-! ## The listen carried by a pipeline outcome is the processed listen -/

set_option maxHeartbeats 1000000 in
/-- Every outcome produced by the fallback chain carries the processed
listen. -/
theorem tryMapFallback_listen (backend : Backend) (submitO : Str → Str → Except String Unit)
    (listen : Listen) (dryRun : Bool) (translatedArtist : Option Str) (log : List Ev)
    (r : MappingResult)
    (h : (tryMapFallback backend submitO listen dryRun translatedArtist log).1 = .ok r) :
    r.listen = listen := by
  unfold tryMapFallback at h
  simp only [M.bind_def, M.pure_def, M.bind_apply] at h
  rcases hs3 : step3Result backend listen translatedArtist log with ⟨v₃, log₁⟩
  rw [hs3] at h
  cases v₃ with
  | error e => simp at h
  | ok m₃ =>
      dsimp only at h
      cases m₃ with
      | some m =>
          simp only [M.bind_apply] at h
          rcases hsub : submitUnlessDry submitO dryRun listen.recording_msid m.mbid log₁
            with ⟨vs, log₂⟩
          rw [hsub] at h
          cases vs with
          | error e => simp at h
          | ok u =>
              simp only [M.pure, Except.ok.injEq] at h
              rw [← h]
      | none =>
          simp only [M.bind_apply] at h
          rcases hto : findMatchByTrackOnly backend listen.track_name
              (orStr translatedArtist listen.artist_name) autoAcceptScore log₁ with ⟨v₄, log₂⟩
          rw [hto] at h
          cases v₄ with
          | error e => simp at h
          | ok m₄ =>
              dsimp only at h
              cases m₄ with
              | some m =>
                  simp only [M.bind_apply] at h
                  rcases hsub : submitUnlessDry submitO dryRun listen.recording_msid m.mbid log₂
                    with ⟨vs, log₃⟩
                  rw [hsub] at h
                  cases vs with
                  | error e => simp at h
                  | ok u =>
                      simp only [M.pure, Except.ok.injEq] at h
                      rw [← h]
              | none =>
                  simp only [M.pure, Except.ok.injEq] at h
                  rw [← h]

set_option maxHeartbeats 1000000 in
/-- Every outcome produced by _try_map carries the processed listen. -/
theorem tryMap_listen (backend : Backend) (translateO : Str → Except String Str)
    (submitO : Str → Str → Except String Unit) (listen : Listen) (dryRun : Bool) (log : List Ev)
    (r : MappingResult)
    (h : (tryMap backend translateO submitO listen dryRun log).1 = .ok r) :
    r.listen = listen := by
  unfold tryMap at h
  simp only [M.bind_def, M.pure_def, M.bind_apply] at h
  rcases hs1 : findBestMatch backend listen.artist_name listen.track_name autoAcceptScore log
    with ⟨v₁, log₁⟩
  rw [hs1] at h
  cases v₁ with
  | error e => simp at h
  | ok m₁ =>
      dsimp only at h
      cases m₁ with
      | some m =>
          simp only [M.bind_apply] at h
          rcases hsub : submitUnlessDry submitO dryRun listen.recording_msid m.mbid log₁
            with ⟨vs, log₂⟩
          rw [hsub] at h
          cases vs with
          | error e => simp at h
          | ok u =>
              simp only [M.pure, Except.ok.injEq] at h
              rw [← h]
      | none =>
          by_cases hc : containsCjk listen.artist_name = true
          case pos =>
            rw [if_pos hc] at h
            simp only [M.bind_apply, callTranslate] at h
            rcases htr : translateO listen.artist_name with t | e
            case _ =>
              rw [htr] at h
              simp at h
            case _ =>
              rw [htr] at h
              dsimp only at h
              rcases hs2 : findBestMatch backend e listen.track_name autoAcceptScore
                  (log₁ ++ [Ev.translate listen.artist_name]) with ⟨v₂, log₂⟩
              rw [hs2] at h
              cases v₂ with
              | error e2 => simp at h
              | ok m₂ =>
                  dsimp only at h
                  cases m₂ with
                  | some m =>
                      simp only [M.bind_apply] at h
                      rcases hsub : submitUnlessDry submitO dryRun listen.recording_msid m.mbid
                          log₂ with ⟨vs, log₃⟩
                      rw [hsub] at h
                      cases vs with
                      | error e3 => simp at h
                      | ok u =>
                          simp only [M.pure, Except.ok.injEq] at h
                          rw [← h]
                  | none => exact tryMapFallback_listen _ _ _ _ _ _ _ h
          case neg =>
            rw [if_neg hc] at h
            exact tryMapFallback_listen _ _ _ _ _ _ _ h

/-! ## The orchestrator: one outcome per listen, in order -/

/-- processOne always succeeds, its outcome carries the processed
listen, and an exception from _try_map on an unlinked listen becomes
an ERROR outcome carrying the message. -/
theorem processOne_spec (backend : Backend) (translateO : Str → Except String Str)
    (submitO : Str → Str → Except String Unit) (listen : Listen) (dryRun : Bool) :
    ∃ r : MappingResult, (processOne backend translateO submitO listen dryRun).val = .ok r ∧
      r.listen = listen ∧
      (listen.is_linked = false →
        ∀ e, (tryMap backend translateO submitO listen dryRun).val = .error e →
          r.status = .error ∧ r.error = some e) := by
  unfold processOne
  simp only [M.bind_def, M.pure_def]
  by_cases hl : listen.is_linked = true
  · rw [if_pos hl]
    exact ⟨_, rfl, rfl, fun hfalse _ _ => absurd hl (by simp [hfalse])⟩
  · rw [if_neg hl]
    have hk : ∀ a : Except String MappingResult, M.Lawful (processWrap listen a) := by
      intro a
      unfold processWrap
      simp only [M.pure_def]
      cases a with
      | ok r => exact M.lawful_pure _
      | error e => exact M.lawful_pure _
    rw [M.bind_val (M.lawful_attempt (lawful_tryMap backend translateO submitO listen dryRun)) hk,
      M.attempt_val (lawful_tryMap backend translateO submitO listen dryRun)]

    cases hv : (tryMap backend translateO submitO listen dryRun).val with
    | ok r' =>
        refine ⟨r', rfl, ?_, ?_⟩
        · exact tryMap_listen backend translateO submitO listen dryRun [] r' hv
        · intro _ e he
          exact Except.noConfusion he
    | error e' =>
        refine ⟨_, rfl, rfl, ?_⟩
        intro _ e he
        have he' : e' = e := by injection he
        subst he'
        exact ⟨rfl, rfl⟩

/-- process over a list of listens yields exactly one outcome per
input listen, in the same order; an unexpected exception while
selecting for one listen yields an ERROR outcome carrying the message
for that listen, and later listens are still processed. -/
theorem processListens_spec (backend : Backend) (translateO : Str → Except String Str)
    (submitO : Str → Str → Except String Unit) (dryRun : Bool) (listens : List Listen) :
    ∃ outs : List MappingResult,
      (processListens backend translateO submitO listens dryRun).val = .ok outs ∧
      outs.length = listens.length ∧
      ∀ i (hi : i < listens.length) (ho : i < outs.length),
        (outs.get ⟨i, ho⟩).listen = listens.get ⟨i, hi⟩ ∧
        ((listens.get ⟨i, hi⟩).is_linked = false →
          ∀ e, (tryMap backend translateO submitO (listens.get ⟨i, hi⟩) dryRun).val = .error e →
            (outs.get ⟨i, ho⟩).status = .error ∧ (outs.get ⟨i, ho⟩).error = some e) := by
  induction listens with
  | nil => exact ⟨[], rfl, rfl, fun i hi => absurd hi (Nat.not_lt_zero i)⟩
  | cons listen rest ih =>
      obtain ⟨outs, hval, hlen, hidx⟩ := ih
      obtain ⟨r, hrval, hrlisten, hrerr⟩ := processOne_spec backend translateO submitO listen dryRun
      refine ⟨r :: outs, ?_, by simp [hlen], ?_⟩
      · unfold processListens
        simp only [M.bind_def, M.pure_def]
        rw [M.bind_val (lawful_processOne backend translateO submitO listen dryRun)
            (fun result => M.lawful_bind
              (lawful_processListens backend translateO submitO rest dryRun)
              (fun results => M.lawful_pure _)),
          hrval]
        dsimp only
        rw [M.bind_val (lawful_processListens backend translateO submitO rest dryRun)
            (fun results => M.lawful_pure _),
          hval]
        rfl
      · intro i hi ho
        cases i with
        | zero => exact ⟨hrlisten, hrerr⟩
        | succ n =>
            have hn : n < rest.length := Nat.lt_of_succ_lt_succ hi
            have hno : n < outs.length := Nat.lt_of_succ_lt_succ ho
            exact hidx n hn hno

/-- The continuation of _try_map after a successful translation
invokes no further translator call. -/
theorem noTranslate_tryMapTranslatedCont (backend : Backend)
    (submitO : Str → Str → Except String Unit) (listen : Listen) (dryRun : Bool) (t : Str) :
    NoTranslate (M.bind (findBestMatch backend t listen.track_name autoAcceptScore)
      (fun m₂ => match m₂ with
        | some m => M.bind (submitUnlessDry submitO dryRun listen.recording_msid m.mbid)
            (fun _ => M.pure (MappingResult.mk listen MappingStatus.mapped (some m)
                (some t) none))
        | none => tryMapFallback backend submitO listen dryRun (some t))) := by
  refine noTranslate_bind (noTranslate_findBestMatch _ _ _ _) (fun m₂ => ?_)
  cases m₂ with
  | some m =>
      exact noTranslate_bind (noTranslate_submitUnlessDry _ _ _ _) (fun _ => noTranslate_pure _)
  | none => exact noTranslate_tryMapFallback _ _ _ _ _

/-- The translator is invoked during _try_map exactly when the step-1
search (exact, then normalized) returned no accepted match and the
artist name passes the contains_cjk gate. -/
theorem tryMap_translate_iff (backend : Backend) (translateO : Str → Except String Str)
    (submitO : Str → Str → Except String Unit) (listen : Listen) (dryRun : Bool) :
    hasTranslateEv (tryMap backend translateO submitO listen dryRun).delta = true ↔
      ((findBestMatch backend listen.artist_name listen.track_name autoAcceptScore).val =
          .ok none ∧ containsCjk listen.artist_name = true) := by
  unfold hasTranslateEv M.delta
  unfold tryMap
  simp only [M.bind_def, M.pure_def]
  rw [M.bind_apply]
  rcases hs1 : findBestMatch backend listen.artist_name listen.track_name autoAcceptScore []
    with ⟨v₁, Δ₁⟩
  have hval1 : (findBestMatch backend listen.artist_name listen.track_name
      autoAcceptScore).val = v₁ := by
    show (findBestMatch backend listen.artist_name listen.track_name autoAcceptScore []).1 = v₁
    rw [hs1]
  have hΔ₁ : Δ₁.any Ev.isTranslate = false := by
    have hnt := noTranslate_findBestMatch backend listen.artist_name listen.track_name
      autoAcceptScore []
    rw [hs1] at hnt
    simpa using hnt
  rw [hval1]
  cases v₁ with
  | error e =>
      dsimp only
      rw [hΔ₁]
      simp
  | ok m₁ =>
      dsimp only
      cases m₁ with
      | some m =>
          have hnt2 := noTranslate_bind
            (noTranslate_submitUnlessDry submitO dryRun listen.recording_msid m.mbid)
            (fun _ => noTranslate_pure
              (MappingResult.mk listen MappingStatus.mapped (some m) none none)) Δ₁
          rw [hnt2, hΔ₁]
          simp
      | none =>
          dsimp only
          by_cases hc : containsCjk listen.artist_name = true
          · rw [if_pos hc, M.bind_apply]
            unfold callTranslate
            cases htr : translateO listen.artist_name with
            | ok t =>
                dsimp only
                rw [noTranslate_tryMapTranslatedCont backend submitO listen dryRun t
                  (Δ₁ ++ [Ev.translate listen.artist_name])]
                simp [hc, hΔ₁, Ev.isTranslate]
            | error e =>
                dsimp only
                simp [hc, hΔ₁, Ev.isTranslate]
          · rw [if_neg hc]
            rw [noTranslate_tryMapFallback backend submitO listen dryRun none Δ₁, hΔ₁]
            simp [hc]

/-- When step 3 produces a candidate, a release name was present and
the candidate is the value of find_match_by_track_release. -/
theorem step3Result_some (backend : Backend) (listen : Listen) (translatedArtist : Option Str)
    (log log₁ : List Ev) (v₃ : Except String (Option RecordingMatch)) (m : RecordingMatch)
    (hs3 : step3Result backend listen translatedArtist log = (v₃, log₁))
    (hv : v₃ = .ok (some m)) :
    listen.release_name ≠ [] ∧
    (findMatchByTrackRelease backend listen.track_name listen.release_name
      (orStr translatedArtist listen.artist_name)).val = .ok (some m) := by
  subst hv
  unfold step3Result at hs3
  by_cases hrel : (!listen.release_name.isEmpty) = true
  · rw [if_pos hrel] at hs3
    constructor
    · intro hnil
      rw [hnil] at hrel
      simp at hrel
    · have := M.val_eq (lawful_findMatchByTrackRelease backend listen.track_name
        listen.release_name (orStr translatedArtist listen.artist_name)) log
      rw [hs3] at this
      exact this.symm
  · rw [if_neg hrel] at hs3
    simp only [M.pure_def, M.pure] at hs3
    have : (Except.ok none : Except String (Option RecordingMatch)) = .ok (some m) := by
      have := congrArg Prod.fst hs3
      simp at this
    simp at this

set_option maxHeartbeats 1000000 in
/-- A MAPPED outcome of the fallback chain carries a candidate found
either by the track-release fallback (artist substring satisfied) or
by the track-only fallback (score threshold and artist substring
satisfied), and carries the threaded translated artist. -/
theorem tryMapFallback_mapped_selected (backend : Backend)
    (submitO : Str → Str → Except String Unit) (listen : Listen) (dryRun : Bool)
    (translatedArtist : Option Str) (log : List Ev) (result : MappingResult)
    (h : (tryMapFallback backend submitO listen dryRun translatedArtist log).1 = .ok result) :
    result.status = .mapped →
    ∃ m, result.matched = some m ∧ result.translated_artist = translatedArtist ∧
      ((listen.release_name ≠ [] ∧
        (findMatchByTrackRelease backend listen.track_name listen.release_name
            (orStr translatedArtist listen.artist_name)).val = .ok (some m) ∧
        substrB (lowerStr (orStr translatedArtist listen.artist_name))
          (lowerStr m.artist_credit) = true)
       ∨ ((findMatchByTrackOnly backend listen.track_name
            (orStr translatedArtist listen.artist_name) autoAcceptScore).val = .ok (some m) ∧
          autoAcceptScore ≤ m.score ∧
          substrB (lowerStr (orStr translatedArtist listen.artist_name))
            (lowerStr m.artist_credit) = true)) := by
  intro hm
  unfold tryMapFallback at h
  simp only [M.bind_def, M.pure_def, M.bind_apply] at h
  rcases hs3 : step3Result backend listen translatedArtist log with ⟨v₃, log₁⟩
  rw [hs3] at h
  cases v₃ with
  | error e => simp at h
  | ok m₃ =>
      dsimp only at h
      cases m₃ with
      | some m =>
          obtain ⟨hrel, hval⟩ := step3Result_some backend listen translatedArtist log log₁
            (.ok (some m)) m hs3 rfl
          have hsubstr : substrB (lowerStr (orStr translatedArtist listen.artist_name))
              (lowerStr m.artist_credit) = true :=
            findMatchByTrackRelease_spec backend listen.track_name listen.release_name
              (orStr translatedArtist listen.artist_name) [] m hval
          simp only [M.bind_apply] at h
          rcases hsub : submitUnlessDry submitO dryRun listen.recording_msid m.mbid log₁
            with ⟨vs, log₂⟩
          rw [hsub] at h
          cases vs with
          | error e => simp at h
          | ok u =>
              simp only [M.pure, Except.ok.injEq] at h
              rw [← h]
              exact ⟨m, rfl, rfl, Or.inl ⟨hrel, hval, hsubstr⟩⟩
      | none =>
          simp only [M.bind_apply] at h
          rcases hto : findMatchByTrackOnly backend listen.track_name
              (orStr translatedArtist listen.artist_name) autoAcceptScore log₁ with ⟨v₄, log₂⟩
          rw [hto] at h
          cases v₄ with
          | error e => simp at h
          | ok m₄ =>
              dsimp only at h
              cases m₄ with
              | some m =>
                  have hval : (findMatchByTrackOnly backend listen.track_name
                      (orStr translatedArtist listen.artist_name) autoAcceptScore).val =
                        .ok (some m) := by
                    have := M.val_eq (lawful_findMatchByTrackOnly backend listen.track_name
                      (orStr translatedArtist listen.artist_name) autoAcceptScore) log₁
                    rw [hto] at this
                    exact this.symm
                  obtain ⟨hscore, hsubstr⟩ := findMatchByTrackOnly_spec backend
                    listen.track_name (orStr translatedArtist listen.artist_name)
                    autoAcceptScore [] m hval
                  simp only [M.bind_apply] at h
                  rcases hsub : submitUnlessDry submitO dryRun listen.recording_msid m.mbid log₂
                    with ⟨vs, log₃⟩
                  rw [hsub] at h
                  cases vs with
                  | error e => simp at h
                  | ok u =>
                      simp only [M.pure, Except.ok.injEq] at h
                      rw [← h]
                      exact ⟨m, rfl, rfl, Or.inr ⟨hval, hscore, hsubstr⟩⟩
              | none =>
                  simp only [M.pure, Except.ok.injEq] at h
                  rw [← h] at hm
                  simp at hm

set_option maxHeartbeats 1000000 in
/-- A MAPPED outcome of _try_map carries a candidate that was found by
one of the five strategies and satisfied that strategy acceptance
rule. -/
theorem tryMap_mapped_selected (backend : Backend) (translateO : Str → Except String Str)
    (submitO : Str → Str → Except String Unit) (listen : Listen) (dryRun : Bool)
    (result : MappingResult)
    (h : (tryMap backend translateO submitO listen dryRun).val = .ok result)
    (hm : result.status = .mapped) :
    ∃ m, result.matched = some m ∧ SelectedByOwnRule backend translateO listen result m := by
  replace h : (tryMap backend translateO submitO listen dryRun []).1 = .ok result := h
  unfold tryMap at h
  simp only [M.bind_def, M.pure_def, M.bind_apply] at h
  rcases hs1 : findBestMatch backend listen.artist_name listen.track_name autoAcceptScore []
    with ⟨v₁, Δ₁⟩
  have hval1 : (findBestMatch backend listen.artist_name listen.track_name
      autoAcceptScore).val = v₁ := by
    show (findBestMatch backend listen.artist_name listen.track_name autoAcceptScore []).1 = v₁
    rw [hs1]
  rw [hs1] at h
  cases v₁ with
  | error e => simp at h
  | ok m₁ =>
      dsimp only at h
      cases m₁ with
      | some m =>
          have hscore : autoAcceptScore ≤ m.score :=
            findBestMatch_score backend listen.artist_name listen.track_name autoAcceptScore m
              [] (by rw [hs1])
          simp only [M.bind_apply] at h
          rcases hsub : submitUnlessDry submitO dryRun listen.recording_msid m.mbid Δ₁
            with ⟨vs, log₂⟩
          rw [hsub] at h
          cases vs with
          | error e => simp at h
          | ok u =>
              simp only [M.pure, Except.ok.injEq] at h
              rw [← h]
              exact ⟨m, rfl, Or.inl ⟨hval1, hscore⟩⟩
      | none =>
          by_cases hc : containsCjk listen.artist_name = true
          case pos =>
            rw [if_pos hc] at h
            simp only [M.bind_apply, callTranslate] at h
            cases htr : translateO listen.artist_name with
            | error e =>
                rw [htr] at h
                simp at h
            | ok t =>
                rw [htr] at h
                dsimp only at h
                rcases hs2 : findBestMatch backend t listen.track_name autoAcceptScore
                    (Δ₁ ++ [Ev.translate listen.artist_name]) with ⟨v₂, log₂⟩
                have hval2 : (findBestMatch backend t listen.track_name
                    autoAcceptScore).val = v₂ := by
                  have := M.val_eq (lawful_findBestMatch backend t listen.track_name
                    autoAcceptScore) (Δ₁ ++ [Ev.translate listen.artist_name])
                  rw [hs2] at this
                  exact this.symm
                rw [hs2] at h
                cases v₂ with
                | error e2 => simp at h
                | ok m₂ =>
                    dsimp only at h
                    cases m₂ with
                    | some m =>
                        have hscore : autoAcceptScore ≤ m.score :=
                          findBestMatch_score backend t listen.track_name autoAcceptScore m
                            (Δ₁ ++ [Ev.translate listen.artist_name]) (by rw [hs2])
                        simp only [M.bind_apply] at h
                        rcases hsub : submitUnlessDry submitO dryRun listen.recording_msid
                            m.mbid log₂ with ⟨vs, log₃⟩
                        rw [hsub] at h
                        cases vs with
                        | error e3 => simp at h
                        | ok u =>
                            simp only [M.pure, Except.ok.injEq] at h
                            rw [← h]
                            exact ⟨m, rfl, Or.inr (Or.inl ⟨hc, t, htr, hval2, hscore⟩)⟩
                    | none =>
                        obtain ⟨m, hmm, hta, hsel⟩ := tryMapFallback_mapped_selected backend
                          submitO listen dryRun (some t) log₂ result h hm
                        refine ⟨m, hmm, ?_⟩
                        unfold SelectedByOwnRule
                        rw [hta]
                        exact Or.inr (Or.inr hsel)
          case neg =>
            rw [if_neg hc] at h
            obtain ⟨m, hmm, hta, hsel⟩ := tryMapFallback_mapped_selected backend
              submitO listen dryRun none Δ₁ result h hm
            refine ⟨m, hmm, ?_⟩
            unfold SelectedByOwnRule
            rw [hta]
            exact Or.inr (Or.inr hsel)

/-! ## The claims -/

/-- C1: every MAPPED outcome of the per-listen pipeline carries a
candidate that satisfied the acceptance rule of the strategy that
found it — score at least the auto-accept threshold for the exact,
normalized and translated searches, the artist-credit substring check
for the track-release fallback, and both for the track-only fallback;
no outcome is ever MAPPED without an underlying accepted candidate. -/
theorem c1_mapped_carries_accepted_candidate (backend : Backend)
    (translateO : Str → Except String Str) (submitO : Str → Str → Except String Unit)
    (listen : Listen) (dryRun : Bool) (result : MappingResult)
    (h : (tryMap backend translateO submitO listen dryRun).val = .ok result)
    (hm : result.status = .mapped) :
    ∃ m, result.matched = some m ∧ SelectedByOwnRule backend translateO listen result m :=
  tryMap_mapped_selected backend translateO submitO listen dryRun result h hm

/-- Witness for C1: a concrete run in which step 1 accepts a score-95
candidate. -/
theorem c1_witness :
    ∃ m, (MappingResult.mk fooListen .mapped (some fooMatch) none none).matched = some m ∧
      SelectedByOwnRule fooBackend noTranslator fooListen
        (MappingResult.mk fooListen .mapped (some fooMatch) none none) m :=
  c1_mapped_carries_accepted_candidate fooBackend noTranslator okSubmit fooListen true
    (MappingResult.mk fooListen .mapped (some fooMatch) none none) (by decide) (by decide)

/-- C2: find_match_by_track_only returns a candidate only if both the
candidate score is at least the auto-accept threshold and the expected
artist appears as a case-insensitive substring of its artist-credit;
in particular a candidate failing the artist check is never the
result. -/
theorem c2_track_only_requires_score_and_artist (backend : Backend)
    (recording expectedArtist : Str) (log : List Ev) (m : RecordingMatch)
    (h : (findMatchByTrackOnly backend recording expectedArtist autoAcceptScore log).1 =
      .ok (some m)) :
    autoAcceptScore ≤ m.score ∧
      substrB (lowerStr expectedArtist) (lowerStr m.artist_credit) = true :=
  findMatchByTrackOnly_spec backend recording expectedArtist autoAcceptScore log m h

/-- Witness for C2: a concrete run returning the score-95 Foo
candidate. -/
theorem c2_witness :
    autoAcceptScore ≤ fooMatch.score ∧
      substrB (lowerStr "Foo".toList) (lowerStr fooMatch.artist_credit) = true :=
  c2_track_only_requires_score_and_artist fooBackend "Plain Song".toList "Foo".toList []
    fooMatch (by decide)

/-- C3 counterexample: a non-success HTTP status and a transport
failure both surface as exceptions out of search_recordings — not as
the empty result list the claim requires. -/
theorem c3_counterexample :
    (searchRecordings failing503Backend (some "a".toList) none none 5).val =
        .error ("HTTP status " ++ toString 503) ∧
    (searchRecordings failing503Backend (some "a".toList) none none 5).val ≠ .ok [] ∧
    (searchRecordings transportFailBackend (some "a".toList) none none 5).val =
        .error "connection reset" := by decide

/-- C3 (amended): a transport failure or non-success HTTP status from
a query-issuing search call is not caught at the adapter; it
propagates out of search_recordings as an exception (the orchestrator
boundary later converts it into an ERROR outcome). -/
theorem c3_amended (backend : Backend) (artist recording release : Option Str) (limit : Nat)
    (hq : (buildQueryParts artist recording release).isEmpty = false) :
    (∀ msg, backend (List.intercalate " AND ".toList (buildQueryParts artist recording release))
        limit = .transportError msg →
      (searchRecordings backend artist recording release limit).val = .error msg) ∧
    (∀ status body, backend (List.intercalate " AND ".toList
          (buildQueryParts artist recording release)) limit = .response status body →
      ¬(200 ≤ status ∧ status < 300) →
      (searchRecordings backend artist recording release limit).val =
        .error ("HTTP status " ++ toString status)) := by
  unfold searchRecordings
  simp only [M.bind_def, M.pure_def]
  rw [if_neg (by simp [hq])]
  constructor
  · intro msg hbe
    rw [M.bind_val (lawful_rateLimitedGet _ _ _) (fun _ => M.lawful_pure _)]
    have hr : (rateLimitedGet backend (List.intercalate " AND ".toList
        (buildQueryParts artist recording release)) limit).val = .error msg := by
      unfold rateLimitedGet M.val
      rw [hbe]
    rw [hr]
  · intro status body hbe hst
    rw [M.bind_val (lawful_rateLimitedGet _ _ _) (fun _ => M.lawful_pure _)]
    have hr : (rateLimitedGet backend (List.intercalate " AND ".toList
        (buildQueryParts artist recording release)) limit).val =
          .error ("HTTP status " ++ toString status) := by
      unfold rateLimitedGet M.val
      rw [hbe]
      dsimp only
      rw [if_neg hst]
    rw [hr]

/-- Witness for C3 (amended) at a concrete 503 backend. -/
theorem c3_witness :
    (searchRecordings failing503Backend (some "b".toList) none none 3).val =
      .error ("HTTP status " ++ toString 503) :=
  (c3_amended failing503Backend (some "b".toList) none none 3 (by decide)).2 503 ⟨[]⟩ rfl
    (by decide)

/-- C4 counterexample: track-name normalization is not idempotent —
stripping the trailing feat credit exposes a trailing edit annotation
that only a second pass removes. -/
theorem c4_counterexample :
    normalizeTrackName (normalizeTrackName "Song (Acoustic) (feat. X)".toList) ≠
      normalizeTrackName "Song (Acoustic) (feat. X)".toList := by
  set_option maxRecDepth 10000 in decide

/-- C4 (amended): a second application of normalize_track either
returns the first result unchanged (idempotence) or strictly shortens
it; re-normalization can only strip further suffixes, and iteration
therefore reaches a fixpoint. -/
theorem c4_amended (x : Str) :
    normalizeTrackName (normalizeTrackName x) = normalizeTrackName x ∨
    (normalizeTrackName (normalizeTrackName x)).length < (normalizeTrackName x).length :=
  normalizeTrackName_eq_or_length_lt (normalizeTrackName x)

/-- C5 counterexample: a Hangul-syllable artist name does not pass the
contains_cjk gate (its class stops at U+9FFF), and a full pipeline run
on such a listen never invokes the translator. -/
theorem c5_counterexample :
    ("한글".toList.any isHangulSyllable = true) ∧
    containsCjk "한글".toList = false ∧
    hasTranslateEv (tryMap emptyBackend noTranslator okSubmit hangulListen true).delta =
      false := by decide

/-- C5 (amended): the translated-artist retry is attempted exactly
when the exact/normalized searches produced no accepted match and the
artist name contains a character in U+3000 to U+9FFF (CJK symbols,
kana, CJK ideographs — Hangul syllables are outside the class). -/
theorem c5_amended (backend : Backend) (translateO : Str → Except String Str)
    (submitO : Str → Str → Except String Unit) (listen : Listen) (dryRun : Bool) :
    hasTranslateEv (tryMap backend translateO submitO listen dryRun).delta = true ↔
      ((findBestMatch backend listen.artist_name listen.track_name autoAcceptScore).val =
          .ok none ∧ containsCjk listen.artist_name = true) :=
  tryMap_translate_iff backend translateO submitO listen dryRun

/-- C6: evaluation at the failing input: the normalized track name is
empty and differs from the original, yet find_best_match issues a
second query — with the empty recording dropped from it, an
artist-only search. -/
theorem c6_failing_input_run :
    normalizeTrackName "(Acoustic Version)".toList = [] ∧
    (findBestMatch emptyBackend "Foo".toList "(Acoustic Version)".toList autoAcceptScore []).2 =
      [Ev.search "artist:\"Foo\" AND recording:\"\\(Acoustic Version\\)\"".toList 5,
       Ev.search "artist:\"Foo\"".toList 5] := by decide

/-- C7: find_match_by_track_release applies no score threshold: given
the per-variant query results, it returns exactly the first candidate
in variant-iteration order (release-name variants outer, track-name
variants inner, backend order within one query) whose artist-credit
contains the expected artist case-insensitively, and None when no
variant combination yields one. -/
theorem c7_track_release_first_match (backend : Backend)
    (recording release expectedArtist : Str) (rs : Str × Str → List RecordingMatch)
    (hrs : ∀ p ∈ releaseTrackPairs recording release,
      (searchRecordings backend none (some p.2) (some p.1) 10).val = .ok (rs p)) :
    (findMatchByTrackRelease backend recording release expectedArtist).val =
      .ok (((releaseTrackPairs recording release).flatMap rs).find?
        (fun r => substrB (lowerStr expectedArtist) (lowerStr r.artist_credit))) :=
  findByTrackReleaseGo_characterize backend (lowerStr expectedArtist)
    (releaseTrackPairs recording release) rs hrs []

/-- Witness for C7 at a concrete backend with one candidate. -/
theorem c7_witness :
    (findMatchByTrackRelease fooBackend "Plain Song".toList "Album".toList "Foo".toList).val =
      .ok (((releaseTrackPairs "Plain Song".toList "Album".toList).flatMap
          (fun _ => [fooMatch])).find?
        (fun r => substrB (lowerStr "Foo".toList) (lowerStr r.artist_credit))) :=
  c7_track_release_first_match fooBackend "Plain Song".toList "Album".toList "Foo".toList
    (fun _ => [fooMatch]) (by decide)

/-- C8: process over a list of listens yields exactly one outcome per
input listen, in the same order; when selection for one listen raises
an unexpected failure, that listen outcome is ERROR carrying the
message and the remaining listens are still processed. -/
theorem c8_one_outcome_per_listen (backend : Backend) (translateO : Str → Except String Str)
    (submitO : Str → Str → Except String Unit) (dryRun : Bool) (listens : List Listen) :
    ∃ outs : List MappingResult,
      (processListens backend translateO submitO listens dryRun).val = .ok outs ∧
      outs.length = listens.length ∧
      ∀ i (hi : i < listens.length) (ho : i < outs.length),
        (outs.get ⟨i, ho⟩).listen = listens.get ⟨i, hi⟩ ∧
        ((listens.get ⟨i, hi⟩).is_linked = false →
          ∀ e, (tryMap backend translateO submitO (listens.get ⟨i, hi⟩) dryRun).val =
              .error e →
            (outs.get ⟨i, ho⟩).status = .error ∧ (outs.get ⟨i, ho⟩).error = some e) :=
  processListens_spec backend translateO submitO dryRun listens

/-- Witness for C8: the three-listen batch in which the second listen
search raises — outcomes are NO_MATCH, ERROR, NO_MATCH, so the third
listen is still processed. -/
theorem c8_witness :
    (processListens flakyBackend noTranslator okSubmit
        [batchListen1, batchListen2, batchListen3] true).val =
      .ok [MappingResult.mk batchListen1 .no_match none none none,
           MappingResult.mk batchListen2 .error none none (some "boom"),
           MappingResult.mk batchListen3 .no_match none none none] ∧
    (∃ outs, (processListens flakyBackend noTranslator okSubmit
        [batchListen1, batchListen2, batchListen3] true).val = .ok outs ∧
      outs.length = 3) := by
  constructor
  · decide
  · obtain ⟨outs, hval, hlen, _⟩ := c8_one_outcome_per_listen flakyBackend noTranslator
      okSubmit true [batchListen1, batchListen2, batchListen3]
    exact ⟨outs, hval, hlen⟩

/-- C9 counterexample: on a result list that is not sorted by score
(80 first, then 95), find_best_match accepts the second candidate even
though the top candidate scores below the threshold — the accepted
candidate is not the top one, and acceptance happens although the top
score is below 90. -/
theorem c9_counterexample :
    (searchRecordings unsortedBackend (some "A".toList) (some "T".toList) none 5).val =
        .ok [scoredMatch 80, scoredMatch 95] ∧
    (findBestMatch unsortedBackend "A".toList "T".toList autoAcceptScore).val =
        .ok (some (scoredMatch 95)) ∧
    scoredMatch 95 ≠ scoredMatch 80 ∧
    (scoredMatch 80).score < autoAcceptScore := by decide

/-- C9 (amended): the acceptance step takes the first candidate, in
backend order, whose score meets the threshold; when the result list
is sorted by non-increasing score (the backend contract), that is
exactly the top candidate, accepted iff its score meets the
threshold. -/
theorem c9_amended (results : List RecordingMatch) (minScore : Int) (r : RecordingMatch)
    (hsort : results.Pairwise (fun a b => b.score ≤ a.score)) :
    acceptAboveThreshold results minScore = some r ↔
      results.head? = some r ∧ minScore ≤ r.score :=
  acceptAboveThreshold_sorted results minScore r hsort

/-- Witness for C9 (amended) on a sorted two-candidate list. -/
theorem c9_witness :
    acceptAboveThreshold [scoredMatch 95, scoredMatch 80] autoAcceptScore =
      some (scoredMatch 95) :=
  (c9_amended [scoredMatch 95, scoredMatch 80] autoAcceptScore (scoredMatch 95)
    (by decide)).mpr ⟨rfl, by decide⟩

/-- C10: translate_artist returns any input that the CJK detection
pattern does not match unchanged, with the cache state untouched and
no cache lookup, cache write or external translator invocation. -/
theorem c10_non_cjk_identity (external : Str → Except String Str) (st : TranslatorState)
    (artistName : Str) (h : containsCjk artistName = false) :
    translateArtist external st artistName = (.ok artistName, st, []) := by
  unfold translateArtist
  rw [if_pos (by simp [h] : ¬containsCjk artistName = true)]

/-- Witness for C10 on a Latin-script artist name. -/
theorem c10_witness :
    translateArtist noTranslator ⟨[]⟩ "Beatles".toList =
      (.ok "Beatles".toList, ⟨[]⟩, []) :=
  c10_non_cjk_identity noTranslator ⟨[]⟩ "Beatles".toList (by decide)

end LbMapper